import Mathlib

/-!
# Verification of the container sharder pass (`swift/container/sharder.py`)

This file gives a shallow embedding of the container sharder daemon.  The
sharder itself (`ContainerSharder`) is embedded function by function from the
source; its side effects (DB merges, replication spawns, pool joins, internal
HTTP calls, logging) are recorded in an explicit event trace, and Python
exceptions are an explicit `Except` result.  Collaborators whose code is not
part of the repository snapshot (the shard trie, the counting trie, the
container broker listing interface, `get_container_shard_path`) are modelled
from the specification; each such definition is marked `Modelled from the
spec:` in its doc comment.

Python strings (object keys, account and container names) are modelled as
lists of naturals (`Str`), with lexicographic comparison mirroring Python's
string comparison and `keyStarts` mirroring `str.startswith`.
-/

namespace Sharder

/-- Object keys / names: a Python string as a sequence of code points. -/
abbrev Str := List Nat

/-- Lexicographic strict order on keys, as Python's `<` on strings. -/
def keyLt : Str → Str → Bool
  | [], [] => false
  | [], _ :: _ => true
  | _ :: _, [] => false
  | a :: as, b :: bs => if a < b then true else if b < a then false else keyLt as bs

/-- `keyStarts p s` is Python's `s.startswith(p)` (note the argument order:
the candidate leading piece comes first). -/
def keyStarts : Str → Str → Bool
  | [], _ => true
  | _ :: _, [] => false
  | a :: as, b :: bs => a == b && keyStarts as bs

/-- Non-strict lexicographic order on keys. -/
def keyLe (a b : Str) : Bool := keyLt a b || a == b

/-- `record_type` of a DB object row. -/
inductive RecType
  | object
  | trieNode
deriving DecidableEq

/-- A record as consumed by `merge_items` (the dictionaries built by
`_generate_object_list`).  `deleted` is the tombstone marker. -/
structure ObjRecord where
  name : Str
  created_at : Nat
  size : Nat
  content_type : Str
  etag : Str
  deleted : Bool
  storage_policy_index : Nat
  record_type : RecType
deriving DecidableEq

/-- A raw DB row tuple as yielded by `list_objects_iter` / `get_shard_nodes`.
`rest = some (size, content_type, etag)` models a tuple of length 5 (an
object row); `rest = none` models a tuple of length at most 3 (a trie-node
row). -/
structure Row where
  name : Str
  created_at : Nat
  rest : Option (Nat × Str × Str)
deriving DecidableEq

/-- Shard-trie node flags. -/
inductive Flag
  | data
  | distBranch
  | interior
deriving DecidableEq

def Flag.isDist : Flag → Bool
  | .distBranch => true
  | _ => false

def Flag.isData : Flag → Bool
  | .data => true
  | _ => false

/-- Modelled from the spec: a shard-trie node (`key`/`full_key`/`flag`/
`timestamp`/optional data).  Only `full_key` is kept since `full_key`
materialisation is computed top-down in the source. -/
structure TNode where
  full_key : Str
  flag : Flag
  timestamp : Nat
  dsize : Nat
  dct : Str
  detag : Str
deriving DecidableEq

/-- Modelled from the spec: a `ShardTrie` as its root key together with the
in-order list of its nodes (interior nodes included where relevant). -/
structure STrie where
  root_key : Str
  nodes : List TNode
deriving DecidableEq

/-- Modelled from the spec: `get_data_nodes()` — DATA nodes only, in order. -/
def STrie.data_nodes (t : STrie) : List TNode :=
  t.nodes.filter (fun n => n.flag.isData)

/-- Modelled from the spec: `get_important_nodes()` — DATA and
DISTRIBUTED_BRANCH nodes (INTERIOR skipped). -/
def STrie.important_nodes (t : STrie) : List TNode :=
  t.nodes.filter (fun n => !(n.flag == Flag.interior))

/-- Modelled from the spec: `metadata['data_node_count']` — the exact count of
DATA nodes currently in the trie. -/
def STrie.data_node_count (t : STrie) : Nat :=
  t.data_nodes.length

/-- Modelled from the spec: `get_last_node()` — the lexicographically greatest
DATA key present (the empty key when there is none). -/
def STrie.get_last_node (t : STrie) : Str :=
  (t.data_nodes.map TNode.full_key).foldl (fun acc k => if keyLt acc k then k else acc) []

/-- Longest common prefix of two keys. -/
def lcp : Str → Str → Str
  | [], _ => []
  | _, [] => []
  | a :: as, b :: bs => if a == b then a :: lcp as bs else []

/-- Modelled from the spec: `trim_trunk()` — collapse the single-child trunk,
resetting `root_key` to the collapsed prefix; a no-op on an empty trie. -/
def STrie.trim_trunk (t : STrie) : STrie :=
  match t.nodes with
  | [] => t
  | n :: ns => { t with root_key := ns.foldl (fun a m => lcp a m.full_key) n.full_key }

/-- Python exceptions that can cross function boundaries in the sharder. -/
inductive Exc
  | deviceUnavailable
  | typeError
  | keyError
  | timeout
  | distBranch (key : Str)
  | fuelOut
deriving DecidableEq

/-- Modelled from the spec: `ShardTrie.__getitem__` / `lookup`.  Returns the
node at the exact key when present; raises the structured
`DistributedBranch(full_key)` signal when the key would descend past a
DISTRIBUTED_BRANCH node; `none` (NotFound, no exception) otherwise. -/
def trie_get_item (t : STrie) (k : Str) : Except Exc (Option TNode) :=
  match t.nodes.find? (fun n => n.full_key == k) with
  | some n => .ok (some n)
  | none =>
    match t.nodes.find? (fun n => n.flag.isDist && !(n.full_key == k) && keyStarts n.full_key k) with
    | some n => .error (.distBranch n.full_key)
    | none => .ok none

/-- Modelled from the spec: `split_trie(prefix)` — the first component is the
new trie rooted at the split key (the subtree at that key); the second is the
mutated parent, where the subtree is replaced with a single
DISTRIBUTED_BRANCH node carrying a fresh timestamp. -/
def split_trie (t : STrie) (p : Str) (now : Nat) : STrie × STrie :=
  (⟨p, t.nodes.filter (fun n => keyStarts p n.full_key)⟩,
   ⟨t.root_key, t.nodes.filter (fun n => !keyStarts p n.full_key) ++
      [⟨p, Flag.distBranch, now, 0, [], []⟩]⟩)

/-- Log messages emitted by the sharder (tags standing for the literal
format strings of the source). -/
inductive LogMsg
  | startPass
  | scanStart
  | scanDone
  | movePrep
  | moveDone
  | cleanupShards
  | shardingAt
  | warnDevice
  | warnDist
  | warnPut
  | replicatingNew
  | cleanupOld
  | finishedDb
  | finishedPass
  | beginPass
  | errorSharding
  | passCompleted
deriving DecidableEq

/-- Observable effects of the sharder, in program order. -/
inductive Ev
  | log (m : LogMsg)
  | ringGetPart (account container : Str)
  | initDb (container : Str)
  | getInfo (container : Str)
  | stampMeta (container : Str)
  | mergeItems (target : Str) (items : List ObjRecord)
  | spawnReplicate (container : Str)
  | waitAll
  | spawnDeleteDb (container : Str)
  | trieFetch (account container : Str)
  | createContainer (account container : Str)
  | ctAdd (key : Str) (distributed : Bool)
  | incrementErrors
  | dumpRecon
deriving DecidableEq

/-- Container metadata keys. -/
inductive MetaKey
  | sharding
  | shardAccount
  | shardContainer
  | shardPfx
  | other (n : Nat)
deriving DecidableEq

/-- `broker.metadata.get(key)`: metadata maps a key to a `(value, timestamp)`
tuple (a present tuple is always truthy in Python). -/
def mdGet (md : List (MetaKey × Str × Nat)) (k : MetaKey) : Option (Str × Nat) :=
  (md.find? (fun e => decide (e.1 = k))).map (fun e => e.2)

/-- A local container DB, together with the oracle data the broker exposes
to the sharder (listing, shard-node rows and `build_shard_trie`, the latter
as an abstract function of the starting key and paging marker). -/
structure Db where
  isLocal : Bool
  account : Str
  container : Str
  metadata : List (MetaKey × Str × Nat)
  policyIndex : Nat
  objects : List Row
  shardNodes : List Row
  buildTrie : Str → Str → STrie

/-- The environment of one sharding pass: the local DBs plus the external
collaborators (ring, handoff lookup, filesystem, internal HTTP client,
clock and configuration). -/
structure World where
  dbs : List Db
  getPart : Str → Str → Nat
  handoff : Nat → Option Nat
  dbExists : Str → Bool
  shardMeta : Str → List (MetaKey × Str × Nat)
  fetchTrie : Str → Str → Except Unit STrie
  createOk : Str → Str → Bool
  now : Nat
  groupCount : Nat
  limit : Nat

/-- The `(part, broker, node_id)` triple stored in `shard_brokers`. -/
structure BrokerInfo where
  part : Nat
  account : Str
  container : Str
  nodeId : Nat
deriving DecidableEq

/-- Pass-scoped mutable state: `shard_brokers` and `shard_cleanups` (both can
be set to `None`), plus which shard DBs have been stamped with shard sysmeta
during this pass. -/
structure St where
  brokers : Option (List (Str × BrokerInfo))
  cleanups : Option (List Str)
  stamped : List Str
deriving DecidableEq

/-- Result of running an embedded sharder function: the state after it, the
events it emitted (also on an exception: the trace up to the raise), and its
return value or exception. -/
structure Out (α : Type) where
  st : St
  tr : List Ev
  res : Except Exc α

instance {ε α : Type} [DecidableEq ε] [DecidableEq α] : DecidableEq (Except ε α) :=
  fun x y =>
    match x, y with
    | .error a, .error b =>
      if h : a = b then .isTrue (by rw [h])
      else .isFalse (fun hc => h (Except.error.inj hc))
    | .error _, .ok _ => .isFalse (fun hc => Except.noConfusion hc)
    | .ok _, .error _ => .isFalse (fun hc => Except.noConfusion hc)
    | .ok a, .ok b =>
      if h : a = b then .isTrue (by rw [h])
      else .isFalse (fun hc => h (Except.ok.inj hc))

/-- Modelled from the spec: `get_container_shard_path` — the storage account
and container names of the shard DB are derived deterministically from
`(account, container, prefix)`; the empty key denotes the root container
itself. -/
def get_container_shard_path (account container : Str) (px : Str) : Str × Str :=
  if px.isEmpty then (account, container) else (account, container ++ [0] ++ px)

/-- Lookup in the `shard_brokers` map (keyed by container name alone). -/
def lookupBroker (bs : List (Str × BrokerInfo)) (c : Str) : Option BrokerInfo :=
  (bs.find? (fun e => e.1 == c)).map (fun e => e.2)

/-- `_get_shard_broker` (sharder.py lines 191-223).  Memoized per pass by
container name; otherwise: ring partition lookup, local handoff device
lookup (raising `DeviceUnavailable` when there is none), DB creation when the
file does not exist (`DatabaseAlreadyExists` swallowed), `get_info`, and
registration in `shard_brokers`.  A `None` broker map raises `TypeError`
(membership test on `None`). -/
def get_shard_broker (w : World) (px : Str) (account container : Str)
    (policyIndex : Nat) (st : St) : Out BrokerInfo :=
  match st.brokers with
  | none => ⟨st, [], .error .typeError⟩
  | some bs =>
    match lookupBroker bs container with
    | some bi => ⟨st, [], .ok bi⟩
    | none =>
      let part := w.getPart account container
      match w.handoff part with
      | none => ⟨st, [Ev.ringGetPart account container], .error .deviceUnavailable⟩
      | some nodeId =>
        let initEvs := if w.dbExists container then [] else [Ev.initDb container]
        let bi : BrokerInfo := ⟨part, account, container, nodeId⟩
        ⟨{ st with brokers := some ((container, bi) :: bs) },
         Ev.ringGetPart account container :: initEvs ++ [Ev.getInfo container],
         .ok bi⟩

/-- The record built for a trie node by `_generate_object_list`
(lines 248-267): a DISTRIBUTED_BRANCH node becomes a `TRIE_NODE` record with
empty payload and the given policy index; a data node an `OBJECT` record. -/
def genTrieRecord (policyIndex : Nat) (delete : Bool) (timestamp : Option Nat)
    (n : TNode) : ObjRecord :=
  if n.flag.isDist then
    ⟨n.full_key, timestamp.getD n.timestamp, 0, [], [], delete, policyIndex, .trieNode⟩
  else
    ⟨n.full_key, timestamp.getD n.timestamp, n.dsize, n.dct, n.detag, delete,
     policyIndex, .object⟩

/-- `_generate_object_list` on a `ShardTrie` input (lines 243-267). -/
def genTrie (t : STrie) (policyIndex : Nat) (delete : Bool) (timestamp : Option Nat)
    (filterDist : Bool) : List ObjRecord :=
  (if filterDist then t.data_nodes else t.important_nodes).map
    (genTrieRecord policyIndex delete timestamp)

/-- `_generate_object_list` on a raw row tuple (lines 269-297): a tuple of
length greater than 3 becomes an `OBJECT` record with the given policy index;
a shorter tuple becomes a `TRIE_NODE` record with `storage_policy_index` 0. -/
def genRow (policyIndex : Nat) (delete : Bool) (timestamp : Option Nat)
    (r : Row) : ObjRecord :=
  match r.rest with
  | some (sz, ct, et) => ⟨r.name, timestamp.getD r.created_at, sz, ct, et, delete,
      policyIndex, .object⟩
  | none => ⟨r.name, timestamp.getD r.created_at, 0, [], [], delete, 0, .trieNode⟩

/-- The possible inputs of `_generate_object_list`: a `ShardTrie`, a list of
raw DB row tuples, or (erroneously) a list of already-generated record
dictionaries. -/
inductive ObjsOrTrie
  | trie (t : STrie)
  | rows (rs : List Row)
  | dicts (ds : List ObjRecord)

/-- `_generate_object_list` (lines 225-298).  Iterating a non-empty list of
dictionaries raises `KeyError`: `item[0]` on a dict raises inside the `try`,
and the handler's `item[0] if item[0] else str(item)` raises it again,
escaping the `except` clause. -/
def generate_object_list (o : ObjsOrTrie) (policyIndex : Nat) (delete : Bool)
    (timestamp : Option Nat) (filterDist : Bool) : Except Exc (List ObjRecord) :=
  match o with
  | .trie t => .ok (genTrie t policyIndex delete timestamp filterDist)
  | .rows rs => .ok (rs.map (genRow policyIndex delete timestamp))
  | .dicts [] => .ok []
  | .dicts (_ :: _) => .error .keyError

/-- Whether the shard broker for container `c` already carries
`X-Container-Sysmeta-Shard-Account` (either persisted, or stamped earlier in
this pass). -/
def effShardMeta (w : World) (st : St) (c : Str) : Bool :=
  st.stamped.contains c || (mdGet (w.shardMeta c) .shardAccount).isSome

/-- The sysmeta-stamping step of `_get_and_fill_shard_broker`
(lines 324-330): stamp the three shard sysmeta headers when
`X-Container-Sysmeta-Shard-Account` is absent and the prefix is non-empty. -/
def stampIfNeeded (w : World) (cont : Str) (px : Str) (st : St) : St × List Ev :=
  if !effShardMeta w st cont && !px.isEmpty then
    ({ st with stamped := cont :: st.stamped }, [Ev.stampMeta cont])
  else (st, [])

/-- `_get_and_fill_shard_broker` (lines 300-336).  `DeviceUnavailable` from
`_get_shard_broker` is caught, logged and turned into a `None` return; shard
sysmeta is stamped on first use when absent and the prefix is non-empty; the
generated records are merged into the shard broker. -/
def get_and_fill_shard_broker (w : World) (px : Str) (objsOrTrie : ObjsOrTrie)
    (account container : Str) (policyIndex : Nat) (delete : Bool) (st : St) :
    Out (Option BrokerInfo) :=
  let ac := get_container_shard_path account container px
  let o := get_shard_broker w px ac.1 ac.2 policyIndex st
  match o.res with
  | .error .deviceUnavailable => ⟨o.st, o.tr ++ [Ev.log .warnDevice], .ok none⟩
  | .error e => ⟨o.st, o.tr, .error e⟩
  | .ok bi =>
    let se := stampIfNeeded w ac.2 px o.st
    match generate_object_list objsOrTrie policyIndex delete none false with
    | .error e => ⟨se.1, o.tr ++ se.2, .error e⟩
    | .ok objects => ⟨se.1, o.tr ++ se.2 ++ [Ev.mergeItems ac.2 objects], .ok (some bi)⟩

/-- `_find_shard_container_prefix` (lines 171-189), with explicit recursion
fuel.  A successful `__getitem__` (found or NotFound) returns the current
trie's root key; on the `DistributedBranch` signal the shard trie for the
branch is taken from the per-call cache or fetched through the internal
client (`_get_shard_trie`, lines 163-169; a `Timeout`/transport error
propagates), an empty fetched trie gets the branch key as root, the trunk is
trimmed, and resolution recurses. -/
def find_shard_container_pfx (w : World) :
    Nat → STrie → Str → Str → Str → List (Str × STrie) →
    List Ev × Except Exc (Str × List (Str × STrie))
  | 0, _, _, _, _, _ => ([], .error .fuelOut)
  | fuel + 1, trie, key, account, container, cache =>
    match trie_get_item trie key with
    | .ok _ => ([], .ok (trie.root_key, cache))
    | .error (.distBranch dk) =>
      match (cache.find? (fun e => e.1 == dk)).map (fun e => e.2) with
      | some t => find_shard_container_pfx w fuel t key account container cache
      | none =>
        let ac := get_container_shard_path account container dk
        match w.fetchTrie ac.1 ac.2 with
        | .error _ => ([Ev.trieFetch ac.1 ac.2], .error .timeout)
        | .ok t0 =>
          let t1 := if t0.nodes.isEmpty then { t0 with root_key := dk } else t0
          let t2 := t1.trim_trunk
          let r := find_shard_container_pfx w fuel t2 key account container ((dk, t2) :: cache)
          (Ev.trieFetch ac.1 ac.2 :: r.1, r.2)
    | .error e => ([], .error e)

/-- `shard_prefix_to_obj` accumulation (lines 359-365): append the row to the
bucket of its prefix, creating the bucket on first use. -/
def insertGroup (gs : List (Str × List Row)) (p : Str) (r : Row) : List (Str × List Row) :=
  match gs with
  | [] => [(p, [r])]
  | (q, rs) :: gtl =>
    if q == p then (q, rs ++ [r]) :: gtl else (q, rs) :: insertGroup gtl p r

/-- The routing loop of `_deal_with_misplaced_objects` (lines 359-365): each
misplaced `(key, dist_key, data)` triple is resolved to its owning shard
prefix (threading the trie cache) and bucketed by prefix. -/
def routeMisplaced (w : World) (fuel : Nat) (trie : STrie) (account container : Str) :
    List (Str × Str × Row) → List (Str × STrie) → List (Str × List Row) →
    List Ev × Except Exc (List (Str × List Row))
  | [], _, gs => ([], .ok gs)
  | (obj, _, data) :: ms, cache, gs =>
    match find_shard_container_pfx w fuel trie obj account container cache with
    | (evs, .error e) => (evs, .error e)
    | (evs, .ok (p, cache2)) =>
      let r := routeMisplaced w fuel trie account container ms cache2 (insertGroup gs p data)
      (evs ++ r.1, r.2)

/-- The fill-and-replicate loop of `_deal_with_misplaced_objects`
(lines 369-374): one handoff broker per prefix bucket is filled and a
replication task spawned for it.  A `None` return from
`_get_and_fill_shard_broker` (the swallowed `DeviceUnavailable`) raises
`TypeError` at the 3-tuple unpacking. -/
def fillAndSpawnAll (w : World) (account container : Str) (policyIndex : Nat) :
    List (Str × List Row) → St → Out Unit
  | [], st => ⟨st, [], .ok ()⟩
  | (p, objs) :: gs, st =>
    let o := get_and_fill_shard_broker w p (.rows objs) account container policyIndex false st
    match o.res with
    | .error e => ⟨o.st, o.tr, .error e⟩
    | .ok none => ⟨o.st, o.tr, .error .typeError⟩
    | .ok (some bi) =>
      let o2 := fillAndSpawnAll w account container policyIndex gs o.st
      ⟨o2.st, o.tr ++ Ev.spawnReplicate bi.container :: o2.tr, o2.res⟩

/-- `_deal_with_misplaced_objects` (lines 338-392): fetch the root shard trie
(`Timeout` propagates), route every misplaced record into per-prefix buckets,
fill one handoff broker per bucket and spawn its replication, join the pool,
set `shard_cleanups`/`shard_brokers` to `None` and spawn the deferred
deletions, join again, and finally merge a tombstone batch for the relocated
records into the parent broker. -/
def deal_with_misplaced_objects (w : World) (fuel : Nat) (parent : Db)
    (misplaced : List (Str × Str × Row)) (account container : Str)
    (policyIndex : Nat) (st : St) : Out Unit :=
  match w.fetchTrie account container with
  | .error _ => ⟨st, [Ev.trieFetch account container], .error .timeout⟩
  | .ok trie =>
    match routeMisplaced w fuel trie account container misplaced [([], trie)] [] with
    | (evs, .error e) => ⟨st, Ev.trieFetch account container :: evs, .error e⟩
    | (evs, .ok groups) =>
      let tr0 := Ev.trieFetch account container :: evs ++ [Ev.log .movePrep]
      let o := fillAndSpawnAll w account container policyIndex groups st
      match o.res with
      | .error e => ⟨o.st, tr0 ++ o.tr, .error e⟩
      | .ok _ =>
        match o.st.cleanups with
        | none => ⟨o.st, tr0 ++ o.tr ++ [Ev.waitAll], .error .typeError⟩
        | some cs =>
          let st1 : St := { o.st with cleanups := none, brokers := none }
          let items := (misplaced.map (fun m => m.2.2)).map (genRow policyIndex true (some w.now))
          ⟨st1,
           tr0 ++ o.tr ++ [Ev.waitAll, Ev.log .cleanupShards] ++ cs.map Ev.spawnDeleteDb ++
             [Ev.waitAll, Ev.mergeItems parent.container items, Ev.log .moveDone],
           .ok ()⟩

/-- `broker.list_objects_iter(limit, marker, ...)`: the rows with name
strictly greater than the marker, up to `limit` of them. -/
def list_objects_iter (db : Db) (limit : Nat) (marker : Str) : List Row :=
  (db.objects.filter (fun r => keyLt marker r.name)).take limit

/-- The inner `while ditem and (...)` loop (lines 495-502): advance the
distributed-node iterator while the object key starts with — or is greater
than — the current distributed key, recording a distributed add only in the
`startswith` case.  Returns the adds made and the remaining distributed
rows. -/
def consumeDists (okey : Str) : List Row → List (Str × Bool × Row) × List Row
  | [] => ([], [])
  | d :: ds =>
    if keyStarts d.name okey || keyLt d.name okey then
      let r := consumeDists okey ds
      ((if keyStarts d.name okey then [(d.name, true, d)] else []) ++ r.1, r.2)
    else ([], d :: ds)

/-- Result of one page of the loading loop. -/
structure PageOut where
  adds : List (Str × Bool × Row)
  dists : List Row
  marker : Str
  count : Nat
deriving DecidableEq

/-- The `for item in obj_iter` body (lines 494-506): for each listed row,
first run `consumeDists` against its key, then add the object itself to the
counting trie, tracking the paging marker and the page count. -/
def processPage (dists : List Row) (marker : Str) : List Row → PageOut
  | [] => ⟨[], dists, marker, 0⟩
  | it :: its =>
    let c := consumeDists it.name dists
    let o := processPage c.2 it.name its
    ⟨c.1 ++ (it.name, false, it) :: o.adds, o.dists, o.marker, o.count + 1⟩

/-- The `while not done` paging loop (lines 481-511): read pages of
`CONTAINER_LISTING_LIMIT` rows, interleaving the distributed rows, until a
page comes back short. -/
def pageLoop (w : World) (db : Db) : Nat → Str → List Row →
    Except Exc (List (Str × Bool × Row))
  | 0, _, _ => .error .fuelOut
  | fuel + 1, marker, dists =>
    let page := list_objects_iter db w.limit marker
    let o := processPage dists marker page
    if o.count < w.limit then .ok o.adds
    else
      match pageLoop w db fuel o.marker o.dists with
      | .error e => .error e
      | .ok adds2 => .ok (o.adds ++ adds2)

/-- Modelled from the spec: the `misplaced` output of the counting trie — for
every non-distributed add whose key lies strictly under some distributed add,
the triple `(key, distributed_ancestor_key, original_record)`, in ingestion
order. -/
def ctMisplaced (adds : List (Str × Bool × Row)) : List (Str × Str × Row) :=
  adds.filterMap (fun a =>
    if a.2.1 then none
    else
      match adds.find? (fun d => d.2.1 && !(d.1 == a.1) && keyStarts d.1 a.1) with
      | some d => some (a.1, d.1, a.2.2)
      | none => none)

/-- The strict ancestors of `k` accounted by the counting trie: the proper
prefixes of `k` strictly extending the configured trie prefix, shortest
first. -/
def ctAncestors (px k : Str) : List Str :=
  k.inits.filter (fun p => !(p == k) && keyStarts px p && !(p == px))

/-- Increment the subtree counter of `p`, returning the new table and the new
count. -/
def bumpCount (cs : List (Str × Nat)) (p : Str) : List (Str × Nat) × Nat :=
  match cs with
  | [] => ([(p, 1)], 1)
  | (q, n) :: ctl =>
    if q == p then ((q, n + 1) :: ctl, n + 1)
    else
      let r := bumpCount ctl p
      ((q, n) :: r.1, r.2)

/-- Modelled from the spec: the `candidates` output of the counting trie — an
ancestor prefix is appended (once, FIFO) when its subtree size first reaches
`group_count`, and candidates never overlap by the prefix relation. -/
def ctCandidates (px : Str) (g : Nat) (adds : List (Str × Bool × Row)) : List Str :=
  (adds.foldl (fun acc a =>
    if a.2.1 then acc
    else
      (ctAncestors px a.1).foldl (fun acc2 p =>
        let r := bumpCount acc2.1 p
        if r.2 == g && acc2.2.all (fun c => !keyStarts c p && !keyStarts p c) then
          (r.1, acc2.2 ++ [p])
        else (r.1, acc2.2)) acc) (([], []) : List (Str × Nat) × List Str)).2

/-- `get_shard_root_path` (lines 394-422): the root account and container are
resolved independently from `X-Container-Sysmeta-Shard-{Account,Container}`,
each falling back to the broker's own identity when its key is absent. -/
def get_shard_root_path (db : Db) : Str × Str :=
  ((match mdGet db.metadata .shardAccount with
    | some v => v.1
    | none => db.account),
   (match mdGet db.metadata .shardContainer with
    | some v => v.1
    | none => db.container))

/-- The values carried from the first part of the candidate-split phase into
its tail: the post-split parent trie, the split-out trie, the new shard
broker, the generated distributed-branch record list and the tombstone
timestamp. -/
structure SplitData where
  parentTrie : STrie
  splitT : STrie
  bi : BrokerInfo
  distItem : List ObjRecord
  ts : Nat

/-- The `add_other_nodes` closure (lines 565-580): while the marker is
non-empty, build a further slice of the subtree at the candidate, generate
its records and merge them into the target broker, advancing the marker while
slices come back full. -/
def add_other_nodes (w : World) (db : Db) (candidate target : Str)
    (delete : Bool) (timestamp : Option Nat) (filterDist : Bool) :
    Nat → Str → List Ev × Except Exc Unit
  | 0, marker => ([], if marker.isEmpty then .ok () else .error .fuelOut)
  | fuel + 1, marker =>
    if marker.isEmpty then ([], .ok ())
    else
      let tmp := db.buildTrie candidate marker
      let objects := genTrie tmp db.policyIndex delete timestamp filterDist
      let marker2 := if tmp.data_node_count == w.limit then tmp.get_last_node else []
      let r := add_other_nodes w db candidate target delete timestamp filterDist fuel marker2
      (Ev.mergeItems target objects :: r.1, r.2)

/-- The candidate-split phase through the parent merge (lines 534-615): build
the sub-trie at the best candidate, skip (with a warning) when its root is a
distributed branch, remember the paging marker when the sub-trie is full,
split, fill a new handoff shard broker from the split trie (a `None` return
raises `TypeError` at unpacking, so the `except DeviceUnavailable` at
line 559 never fires), page the remaining slices into the new broker, create
the container through the internal client (`UnexpectedResponse` logged and
swallowed), spawn and join the replication of the new shard DB, and merge
into the parent — in one `merge_items` call — the tombstone batch for the
split trie (`filter_dist = is_root`) together with the single new
distributed-branch `TRIE_NODE` record. -/
def splitStageA (w : World) (fuel : Nat) (db : Db) (rootAccount rootContainer : Str)
    (isRoot : Bool) (candidate : Str) (st : St) : Out (Option SplitData) :=
  let trie := db.buildTrie candidate []
  match trie_get_item trie candidate with
  | .error e => ⟨st, [], .error e⟩
  | .ok none => ⟨st, [], .error .keyError⟩
  | .ok (some node) =>
    if node.flag.isDist then ⟨st, [Ev.log .warnDist], .ok none⟩
    else
      let marker := if trie.data_node_count == w.limit then trie.get_last_node else []
      let s := split_trie trie candidate w.now
      let o := get_and_fill_shard_broker w s.1.root_key (.trie s.1) rootAccount
        rootContainer db.policyIndex false st
      match o.res with
      | .error e => ⟨o.st, Ev.log .shardingAt :: o.tr, .error e⟩
      | .ok none => ⟨o.st, Ev.log .shardingAt :: o.tr, .error .typeError⟩
      | .ok (some bi) =>
        match add_other_nodes w db candidate bi.container false none false fuel marker with
        | (evs, .error e) => ⟨o.st, Ev.log .shardingAt :: o.tr ++ evs, .error e⟩
        | (evs, .ok _) =>
          let createEvs := Ev.createContainer bi.account bi.container ::
            (if w.createOk bi.account bi.container then [] else [Ev.log .warnPut])
          let tr2 := Ev.log .shardingAt :: o.tr ++ evs ++ createEvs ++
            [Ev.log .replicatingNew, Ev.spawnReplicate bi.container, Ev.waitAll,
             Ev.log .cleanupOld]
          let items := genTrie s.1 db.policyIndex true (some w.now) isRoot
          match trie_get_item s.2 node.full_key with
          | .error e => ⟨o.st, tr2, .error e⟩
          | .ok none => ⟨o.st, tr2, .error .keyError⟩
          | .ok (some distNode) =>
            let distItem := genTrie ⟨distNode.full_key, [distNode]⟩ db.policyIndex false none false
            ⟨o.st, tr2 ++ [Ev.mergeItems db.container (items ++ distItem)],
             .ok (some ⟨s.2, s.1, bi, distItem, w.now⟩)⟩

/-- The tail of the candidate-split phase (lines 617-641): page further
tombstone batches into the parent when the (post-split) trie was capped at
the listing limit, and for a non-root DB push the new distributed-branch
record up to the root container by filling a handoff broker for
`(root_account, root_container, '')` — passing the already-generated record
dictionaries back into `_generate_object_list` — and replicating it. -/
def splitStageB (w : World) (fuel : Nat) (db : Db) (rootAccount rootContainer : Str)
    (isRoot : Bool) (candidate : Str) (d : SplitData) (st : St) : Out Unit :=
  let paged :=
    if d.parentTrie.data_node_count == w.limit then
      add_other_nodes w db candidate db.container true (some d.ts) isRoot fuel
        d.parentTrie.get_last_node
    else ([], .ok ())
  match paged with
  | (evs, .error e) => ⟨st, evs, .error e⟩
  | (evs, .ok _) =>
    if isRoot then ⟨st, evs ++ [Ev.log .finishedDb], .ok ()⟩
    else
      let o := get_and_fill_shard_broker w [] (.dicts d.distItem) rootAccount
        rootContainer db.policyIndex false st
      match o.res with
      | .error e => ⟨o.st, evs ++ o.tr, .error e⟩
      | .ok none => ⟨o.st, evs ++ o.tr, .error .typeError⟩
      | .ok (some bi) =>
        ⟨o.st, evs ++ o.tr ++ [Ev.spawnReplicate bi.container, Ev.waitAll, Ev.log .finishedDb],
         .ok ()⟩

/-- The candidate-split phase (lines 533-641): only `candidates[0]` is
processed. -/
def splitPhase (w : World) (fuel : Nat) (db : Db) (rootAccount rootContainer : Str)
    (isRoot : Bool) (cands : List Str) (st : St) : Out Unit :=
  match cands with
  | [] => ⟨st, [], .ok ()⟩
  | candidate :: _ =>
    let a := splitStageA w fuel db rootAccount rootContainer isRoot candidate st
    match a.res with
    | .error e => ⟨a.st, a.tr, .error e⟩
    | .ok none => ⟨a.st, a.tr, .ok ()⟩
    | .ok (some d) =>
      let b := splitStageB w fuel db rootAccount rootContainer isRoot candidate d a.st
      ⟨b.st, a.tr ++ b.tr, b.res⟩

/-- Whether the per-DB loop processes this DB (lines 453-457): the metadata
has `X-Container-Sysmeta-Sharding` present — with any value, since a present
`(value, timestamp)` tuple is always truthy — or has
`X-Container-Sysmeta-Shard-Account` present. -/
def participates (db : Db) : Bool :=
  (mdGet db.metadata .sharding).isSome || (mdGet db.metadata .shardAccount).isSome

/-- The per-DB body of `_one_shard_pass` (lines 458-641), after the
participation check: resolve the root path and shard prefix, feed the
distributed rows first for a non-root DB, run the paging loop, hand the
misplaced records to `_deal_with_misplaced_objects` (resetting the
pass-scoped maps afterwards), and run the candidate-split phase. -/
def processDbBody (w : World) (fuel : Nat) (db : Db) (st : St) : Out Unit :=
  let rp := get_shard_root_path db
  let px := match mdGet db.metadata .shardPfx with
    | some v => v.1
    | none => []
  let isRoot := rp.2 == db.container
  let preAdds := if !isRoot then db.shardNodes.map (fun r => (r.name, true, r)) else []
  match pageLoop w db fuel [] db.shardNodes with
  | .error e => ⟨st, preAdds.map (fun a => Ev.ctAdd a.1 a.2.1), .error e⟩
  | .ok pageAdds =>
    let adds := preAdds ++ pageAdds
    let tr0 := adds.map (fun a => Ev.ctAdd a.1 a.2.1) ++ [Ev.log .scanDone]
    let misplaced := ctMisplaced adds
    let afterMis : Out Unit :=
      if misplaced.isEmpty then ⟨st, tr0, .ok ()⟩
      else
        let o := deal_with_misplaced_objects w fuel db misplaced rp.1 rp.2 db.policyIndex st
        match o.res with
        | .error e => ⟨o.st, tr0 ++ o.tr, .error e⟩
        | .ok _ => ⟨{ o.st with brokers := some [], cleanups := some [] }, tr0 ++ o.tr, .ok ()⟩
    match afterMis.res with
    | .error _ => afterMis
    | .ok _ =>
      let s := splitPhase w fuel db rp.1 rp.2 isRoot (ctCandidates px w.groupCount adds) afterMis.st
      ⟨s.st, afterMis.tr ++ s.tr, s.res⟩

/-- One iteration of the per-DB loop of `_one_shard_pass`: a DB that is not
participating is skipped unchanged; otherwise the scan-start line is logged
and the body runs. -/
def processDb (w : World) (fuel : Nat) (db : Db) (st : St) : Out Unit :=
  if participates db then
    let o := processDbBody w fuel db st
    ⟨o.st, Ev.log .scanStart :: o.tr, o.res⟩
  else ⟨st, [], .ok ()⟩

/-- The per-DB loop of `_one_shard_pass` (lines 448-641): non-local DBs are
skipped; any exception escaping a DB's processing aborts the whole loop (the
loop body has no exception handler). -/
def passLoop (w : World) (fuel : Nat) : List Db → St → Out Unit
  | [], st => ⟨st, [], .ok ()⟩
  | db :: dbs, st =>
    if db.isLocal then
      let o := processDb w fuel db st
      match o.res with
      | .error e => ⟨o.st, o.tr, .error e⟩
      | .ok _ =>
        let o2 := passLoop w fuel dbs o.st
        ⟨o2.st, o.tr ++ o2.tr, o2.res⟩
    else passLoop w fuel dbs st

/-- `_one_shard_pass` (lines 438-653): fresh pass-scoped maps, the per-DB
loop, then the end-of-pass cleanup of the registered shard brokers. -/
def one_shard_pass (w : World) (fuel : Nat) : Out Unit :=
  let o := passLoop w fuel w.dbs ⟨some [], some [], []⟩
  match o.res with
  | .error e => ⟨o.st, Ev.log .startPass :: o.tr, .error e⟩
  | .ok _ =>
    match o.st.cleanups with
    | none => ⟨o.st, Ev.log .startPass :: o.tr, .error .typeError⟩
    | some cs =>
      ⟨{ o.st with cleanups := none },
       Ev.log .startPass :: o.tr ++ Ev.log .cleanupShards :: cs.map Ev.spawnDeleteDb ++
         [Ev.waitAll, Ev.log .finishedPass],
       .ok ()⟩

/-- One iteration of `run_forever` (lines 679-697): run a pass; any
`Exception` or `Timeout` escaping it is caught here, the error counter is
incremented and the exception logged; the iteration always completes,
logging the pass duration and dumping the recon cache. -/
def run_forever_body (w : World) (fuel : Nat) : List Ev × Except Exc Unit :=
  let o := one_shard_pass w fuel
  match o.res with
  | .error _ =>
    (Ev.log .beginPass :: o.tr ++
      [Ev.incrementErrors, Ev.log .errorSharding, Ev.log .passCompleted, Ev.dumpRecon],
     .ok ())
  | .ok _ =>
    (Ev.log .beginPass :: o.tr ++ [Ev.log .passCompleted, Ev.dumpRecon], .ok ())

/-! ## Trace predicates

The ordering guarantees of the pass are stated as automata over the event
trace.  `sateGo` checks that no tombstone-bearing `merge_items` call happens
while a replication task spawned earlier has not been joined; `guardGo`
checks that every tombstone-bearing merge is preceded by a replication spawn
and a later pool join. -/

/-- A replication spawn. -/
def isSpawnEv : Ev → Bool
  | .spawnReplicate _ => true
  | _ => false

/-- A pool join. -/
def isJoinEv : Ev → Bool
  | .waitAll => true
  | _ => false

/-- A `merge_items` call carrying at least one tombstone. -/
def isTombEv : Ev → Bool
  | .mergeItems _ items => items.any (fun r => r.deleted)
  | _ => false

/-- Pending-spawn automaton step: a join clears the pending flag, a spawn
sets it. -/
def sstep (p : Bool) (e : Ev) : Bool :=
  if isJoinEv e then false else p || isSpawnEv e

/-- `sateGo p t` holds when no tombstone merge in `t` happens while a
replication spawn (from `t`, or pending on entry when `p` is set) has not
been joined. -/
def sateGo : Bool → List Ev → Bool
  | _, [] => true
  | p, e :: t => if p && isTombEv e then false else sateGo (sstep p e) t

/-- The pending flag after running a trace. -/
def pendOut : Bool → List Ev → Bool
  | p, [] => p
  | p, e :: t => pendOut (sstep p e) t

/-- Guard automaton state: no spawn seen yet / a spawn seen / a spawn and a
later join seen. -/
inductive GSt
  | start
  | spawned
  | joined
deriving DecidableEq

/-- Guard automaton step. -/
def gstep (s : GSt) (e : Ev) : GSt :=
  match s with
  | .start => if isSpawnEv e then .spawned else .start
  | .spawned => if isJoinEv e then .joined else .spawned
  | .joined => .joined

/-- `guardGo s t` holds when every tombstone merge in `t` is preceded by a
replication spawn and a later pool join. -/
def guardGo : GSt → List Ev → Bool
  | _, [] => true
  | s, e :: t => if isTombEv e && !(s == GSt.joined) then false else guardGo (gstep s e) t

/-- The guard automaton state after running a trace. -/
def gOut : GSt → List Ev → GSt
  | s, [] => s
  | s, e :: t => gOut (gstep s e) t

/-- Rank of a guard state, for monotonicity. -/
def GSt.rank : GSt → Nat
  | .start => 0
  | .spawned => 1
  | .joined => 2

/-- No tombstone merge in the trace. -/
def tombFree (t : List Ev) : Bool := t.all (fun e => !isTombEv e)

/-- No replication spawn in the trace. -/
def spawnFree (t : List Ev) : Bool := t.all (fun e => !isSpawnEv e)

/-- No pool join in the trace. -/
def joinFree (t : List Ev) : Bool := t.all (fun e => !isJoinEv e)

/-- No tombstone merge, replication spawn or pool join in the trace. -/
def calm (t : List Ev) : Bool :=
  t.all (fun e => !isTombEv e && !isSpawnEv e && !isJoinEv e)

/-! ## The amended interleaving (claim C2)

`interleave_amended` follows the words of the amended claim: before each
object key is added, every outstanding distributed-node record whose key is
`≤` the object key is consumed, but only those whose key is a prefix of the
object key are added (as distributed adds, before the object add); the
others are dropped without being added. -/

/-- The amended interleaving specification (see above). -/
def interleave_amended : List Row → List Row → List (Str × Bool × Row)
  | _, [] => []
  | dists, o :: os =>
    let consumed := dists.takeWhile (fun d => keyLe d.name o.name)
    (consumed.filter (fun d => keyStarts d.name o.name)).map (fun d => (d.name, true, d)) ++
      (o.name, false, o) :: interleave_amended (dists.dropWhile (fun d => keyLe d.name o.name)) os

/-- Whether the candidate-split phase reached the parent merge (its first
stage returned split data rather than skipping or raising). -/
def stageAMerged (o : Out (Option SplitData)) : Bool :=
  match o.res with
  | .ok (some _) => true
  | _ => false

/-! ## Concrete worlds used as counterexamples and witnesses -/

/-- The value `On` of the opt-in sharding header, as a key. -/
def onVal : Str := [79, 110]

/-- A root container DB holding object `[2]` and a distributed-node row `[1]`
(which is `≤ [2]` but not a prefix of it). -/
def db2 : Db where
  isLocal := true
  account := [7]
  container := [8]
  metadata := [(.sharding, onVal, 0)]
  policyIndex := 0
  objects := [⟨[2], 2, some (5, [], [])⟩]
  shardNodes := [⟨[1], 1, none⟩]
  buildTrie := fun _ _ => ⟨[], []⟩

/-- A world containing only `db2`. -/
def w2 : World where
  dbs := [db2]
  getPart := fun _ _ => 0
  handoff := fun _ => some 0
  dbExists := fun _ => false
  shardMeta := fun _ => []
  fetchTrie := fun _ _ => .ok ⟨[], []⟩
  createOk := fun _ _ => true
  now := 99
  groupCount := 100
  limit := 10

/-- A DB whose `X-Container-Sysmeta-Sharding` is present but not `On`. -/
def db4 : Db :=
  { db2 with metadata := [(.sharding, [9], 0)], shardNodes := [], objects := [] }

/-- A world containing only `db4`. -/
def w4 : World := { w2 with dbs := [db4] }

/-- A non-root shard DB (prefix `[1]`) holding the misplaced object `[1,5]`
under the distributed branch `[1]`. -/
def db5 : Db where
  isLocal := true
  account := [7]
  container := [8]
  metadata := [(.shardAccount, [20], 0), (.shardContainer, [21], 0), (.shardPfx, [1], 0)]
  policyIndex := 0
  objects := [⟨[1, 5], 2, some (5, [], [])⟩]
  shardNodes := [⟨[1], 1, none⟩]
  buildTrie := fun _ _ => ⟨[], []⟩

/-- A second participating local DB, used to observe whether the pass
continues after an error on the first one. -/
def db5b : Db := { db4 with metadata := [(.sharding, onVal, 0)] }

/-- A world where no local handoff device exists for any partition. -/
def w5 : World := { w2 with dbs := [db5, db5b], handoff := fun _ => none }

/-- A root DB with a misplaced object, so its pass must fetch the root shard
trie. -/
def db6 : Db :=
  { db5 with metadata := [(.sharding, onVal, 0)] }

/-- A world whose internal client times out on every trie fetch. -/
def w6 : World := { w2 with dbs := [db6, db5b], fetchTrie := fun _ _ => .error () }

/-- The sub-trie at candidate `[1,1]` for the non-root split world. -/
def trie7 : STrie :=
  ⟨[1, 1], [⟨[1, 1], .interior, 0, 0, [], []⟩, ⟨[1, 1, 1], .data, 3, 1, [], []⟩,
    ⟨[1, 1, 2], .data, 4, 1, [], []⟩]⟩

/-- A non-root shard DB (prefix `[1]`, root `[20]/[21]`) whose two objects
under `[1,1]` make `[1,1]` a split candidate at group count 2. -/
def db7 : Db where
  isLocal := true
  account := [7]
  container := [8]
  metadata := [(.shardAccount, [20], 0), (.shardContainer, [21], 0), (.shardPfx, [1], 0)]
  policyIndex := 3
  objects := [⟨[1, 1, 1], 3, some (1, [], [])⟩, ⟨[1, 1, 2], 4, some (1, [], [])⟩]
  shardNodes := []
  buildTrie := fun _ _ => trie7

/-- A world triggering a non-root candidate split. -/
def w7 : World := { w2 with dbs := [db7], groupCount := 2 }

/-- The sub-trie at candidate `[1]` for the root split world. -/
def trie3 : STrie :=
  ⟨[1], [⟨[1], .interior, 0, 0, [], []⟩, ⟨[1, 1], .data, 3, 1, [], []⟩,
    ⟨[1, 2], .data, 4, 1, [], []⟩]⟩

/-- A root container DB whose two objects under `[1]` make `[1]` a split
candidate at group count 2. -/
def db3 : Db where
  isLocal := true
  account := [7]
  container := [8]
  metadata := [(.sharding, onVal, 0)]
  policyIndex := 0
  objects := [⟨[1, 1], 3, some (1, [], [])⟩, ⟨[1, 2], 4, some (1, [], [])⟩]
  shardNodes := []
  buildTrie := fun _ _ => trie3

/-- A world triggering a root candidate split. -/
def w3 : World := { w2 with dbs := [db3], groupCount := 2 }

/-- The initial pass-scoped state. -/
def st0 : St := ⟨some [], some [], []⟩

/-- A DB with neither sharding sysmeta key, for the skip direction of C4. -/
def dbPlain : Db := { db2 with metadata := [(.other 5, [1], 0)] }

/-- A DB with only `X-Container-Sysmeta-Shard-Account` set, for C9. -/
def db9a : Db := { db2 with metadata := [(.shardAccount, [30], 7)] }

/-- A DB with only `X-Container-Sysmeta-Shard-Container` set, for C9. -/
def db9c : Db := { db2 with metadata := [(.shardContainer, [31], 7)] }

/-! # Theorems -/

theorem keyStarts_refl (a : Str) : keyStarts a a = true := by
  induction a with
  | nil => rfl
  | cons x xs ih => simp [keyStarts, ih]

theorem keyStarts_le (a b : Str) (h : keyStarts a b = true) : keyLt a b = true ∨ a = b := by
  induction a generalizing b with
  | nil =>
    cases b with
    | nil => right; rfl
    | cons y ys => left; rfl
  | cons x xs ih =>
    cases b with
    | nil => simp [keyStarts] at h
    | cons y ys =>
      simp only [keyStarts, Bool.and_eq_true, beq_iff_eq] at h
      obtain ⟨h1, h2⟩ := h
      subst h1
      rcases ih ys h2 with h3 | h3
      · left; simp [keyLt, h3]
      · right; rw [h3]

theorem keyStarts_or_lt (a b : Str) :
    (keyStarts a b || keyLt a b) = (keyLt a b || a == b) := by
  cases h1 : keyStarts a b
  · cases h2 : a == b
    · simp
    · have hab : a = b := by exact eq_of_beq h2
      subst hab
      rw [keyStarts_refl a] at h1
      exact absurd h1 (by simp)
  · rcases keyStarts_le a b h1 with h | h
    · simp [h]
    · subst h
      simp

theorem sateGo_append (t1 t2 : List Ev) (p : Bool) :
    sateGo p (t1 ++ t2) = (sateGo p t1 && sateGo (pendOut p t1) t2) := by
  induction t1 generalizing p with
  | nil => simp [sateGo, pendOut]
  | cons e t ih =>
    simp only [List.cons_append, sateGo, pendOut]
    split
    · simp
    · exact ih _

theorem pendOut_append (t1 t2 : List Ev) (p : Bool) :
    pendOut p (t1 ++ t2) = pendOut (pendOut p t1) t2 := by
  induction t1 generalizing p with
  | nil => simp [pendOut]
  | cons e t ih =>
    simp only [List.cons_append, pendOut]
    exact ih _

theorem guardGo_append (t1 t2 : List Ev) (s : GSt) :
    guardGo s (t1 ++ t2) = (guardGo s t1 && guardGo (gOut s t1) t2) := by
  induction t1 generalizing s with
  | nil => simp [guardGo, gOut]
  | cons e t ih =>
    simp only [List.cons_append, guardGo, gOut]
    split
    · simp
    · exact ih _

theorem gOut_append (t1 t2 : List Ev) (s : GSt) :
    gOut s (t1 ++ t2) = gOut (gOut s t1) t2 := by
  induction t1 generalizing s with
  | nil => simp [gOut]
  | cons e t ih =>
    simp only [List.cons_append, gOut]
    exact ih _

theorem sateGo_of_tombFree (t : List Ev) (h : tombFree t = true) (p : Bool) :
    sateGo p t = true := by
  induction t generalizing p with
  | nil => rfl
  | cons e t ih =>
    simp only [tombFree, List.all_cons, Bool.and_eq_true, Bool.not_eq_true'] at h
    have ht : tombFree t = true := by simpa [tombFree] using h.2
    simp [sateGo, h.1, ih ht]

theorem guardGo_of_tombFree (t : List Ev) (h : tombFree t = true) (s : GSt) :
    guardGo s t = true := by
  induction t generalizing s with
  | nil => rfl
  | cons e t ih =>
    simp only [tombFree, List.all_cons, Bool.and_eq_true, Bool.not_eq_true'] at h
    have ht : tombFree t = true := by simpa [tombFree] using h.2
    simp [guardGo, h.1, ih ht]

theorem sateGo_false_of_spawnFree (t : List Ev) (h : spawnFree t = true) :
    sateGo false t = true := by
  induction t with
  | nil => rfl
  | cons e t ih =>
    simp only [spawnFree, List.all_cons, Bool.and_eq_true, Bool.not_eq_true'] at h
    have hs : sstep false e = false := by
      simp [sstep, h.1]
    have ht : spawnFree t = true := by simpa [spawnFree] using h.2
    simp [sateGo, hs, ih ht]

theorem pendOut_false_of_spawnFree (t : List Ev) (h : spawnFree t = true) :
    pendOut false t = false := by
  induction t with
  | nil => rfl
  | cons e t ih =>
    simp only [spawnFree, List.all_cons, Bool.and_eq_true, Bool.not_eq_true'] at h
    have hs : sstep false e = false := by
      simp [sstep, h.1]
    have ht : spawnFree t = true := by simpa [spawnFree] using h.2
    simp only [pendOut, hs]
    exact ih ht

theorem guardGo_joined (t : List Ev) : guardGo GSt.joined t = true := by
  induction t with
  | nil => rfl
  | cons e t ih => simpa [guardGo, gstep] using ih

theorem gOut_joined (t : List Ev) : gOut GSt.joined t = GSt.joined := by
  induction t with
  | nil => rfl
  | cons e t ih =>
    simp only [gOut, gstep]
    exact ih

theorem sateGo_mono (t : List Ev) : ∀ p : Bool, sateGo true t = true → sateGo p t = true := by
  induction t with
  | nil => intro p _; rfl
  | cons e t ih =>
    intro p h
    by_cases ht : isTombEv e = true
    · exfalso
      simp [sateGo, ht] at h
    · simp only [Bool.not_eq_true] at ht
      simp only [sateGo, ht, Bool.and_false, Bool.false_eq_true, if_false] at h ⊢
      by_cases hj : isJoinEv e = true
      · have h1 : sstep true e = false := by simp [sstep, hj]
        have h2 : sstep p e = false := by simp [sstep, hj]
        rw [h1] at h; rw [h2]; exact h
      · simp only [Bool.not_eq_true] at hj
        have h1 : sstep true e = true := by simp [sstep, hj]
        rw [h1] at h
        exact ih _ h

theorem rank_two_eq_joined (s : GSt) (h : 2 ≤ s.rank) : s = GSt.joined := by
  cases s <;> simp [GSt.rank] at h ⊢

theorem gstep_rank_mono (x y : GSt) (e : Ev) (h : x.rank ≤ y.rank) :
    (gstep x e).rank ≤ (gstep y e).rank := by
  cases x <;> cases y <;>
    cases hs : isSpawnEv e <;> cases hj : isJoinEv e <;>
      simp_all [gstep, GSt.rank]

theorem guardGo_mono (t : List Ev) : ∀ x y : GSt, x.rank ≤ y.rank →
    guardGo x t = true → guardGo y t = true := by
  induction t with
  | nil => intro x y _ _; rfl
  | cons e t ih =>
    intro x y hxy hx
    by_cases ht : isTombEv e = true
    · have hxj : x = GSt.joined := by
        cases x
        · simp [guardGo, ht] at hx
        · simp [guardGo, ht] at hx
        · rfl
      subst hxj
      have hyj : y = GSt.joined := rank_two_eq_joined y (by simpa [GSt.rank] using hxy)
      subst hyj
      exact hx
    · simp only [Bool.not_eq_true] at ht
      simp only [guardGo, ht, Bool.false_and, Bool.false_eq_true, if_false] at hx ⊢
      exact ih _ _ (gstep_rank_mono x y e hxy) hx

theorem calm_tombFree (t : List Ev) (h : calm t = true) : tombFree t = true := by
  simp only [calm, List.all_eq_true, Bool.and_eq_true] at h
  simp only [tombFree, List.all_eq_true]
  intro e he
  exact (h e he).1.1

theorem calm_spawnFree (t : List Ev) (h : calm t = true) : spawnFree t = true := by
  simp only [calm, List.all_eq_true, Bool.and_eq_true] at h
  simp only [spawnFree, List.all_eq_true]
  intro e he
  exact (h e he).1.2

theorem calm_joinFree (t : List Ev) (h : calm t = true) : joinFree t = true := by
  simp only [calm, List.all_eq_true, Bool.and_eq_true] at h
  simp only [joinFree, List.all_eq_true]
  intro e he
  exact (h e he).2

theorem gOut_stay (t : List Ev) (hs : spawnFree t = true) (hj : joinFree t = true)
    (s : GSt) : gOut s t = s := by
  induction t generalizing s with
  | nil => rfl
  | cons e t ih =>
    simp only [spawnFree, joinFree, List.all_cons, Bool.and_eq_true, Bool.not_eq_true'] at hs hj
    have : gstep s e = s := by
      cases s <;> simp [gstep, hs.1, hj.1]
    simp only [gOut, this]
    exact ih (by simpa [spawnFree] using hs.2) (by simpa [joinFree] using hj.2) _

theorem pendOut_stay (t : List Ev) (hs : spawnFree t = true) (hj : joinFree t = true)
    (p : Bool) : pendOut p t = p := by
  induction t generalizing p with
  | nil => rfl
  | cons e t ih =>
    simp only [spawnFree, joinFree, List.all_cons, Bool.and_eq_true, Bool.not_eq_true'] at hs hj
    have : sstep p e = p := by
      simp [sstep, hs.1, hj.1]
    simp only [pendOut, this]
    exact ih (by simpa [spawnFree] using hs.2) (by simpa [joinFree] using hj.2) _

theorem gOut_spawned_of_joinFree (t : List Ev) (hj : joinFree t = true) :
    gOut GSt.spawned t = GSt.spawned := by
  induction t with
  | nil => rfl
  | cons e t ih =>
    simp only [joinFree, List.all_cons, Bool.and_eq_true, Bool.not_eq_true'] at hj
    have : gstep GSt.spawned e = GSt.spawned := by simp [gstep, hj.1]
    simp only [gOut, this]
    exact ih (by simpa [joinFree] using hj.2)

theorem tombFree_append (t1 t2 : List Ev) :
    tombFree (t1 ++ t2) = (tombFree t1 && tombFree t2) := by
  simp [tombFree, List.all_append]

theorem spawnFree_append (t1 t2 : List Ev) :
    spawnFree (t1 ++ t2) = (spawnFree t1 && spawnFree t2) := by
  simp [spawnFree, List.all_append]

theorem joinFree_append (t1 t2 : List Ev) :
    joinFree (t1 ++ t2) = (joinFree t1 && joinFree t2) := by
  simp [joinFree, List.all_append]

theorem calm_append (t1 t2 : List Ev) :
    calm (t1 ++ t2) = (calm t1 && calm t2) := by
  simp [calm, List.all_append]

theorem genTrieRecord_deleted (pi : Nat) (d : Bool) (ts : Option Nat) (n : TNode) :
    (genTrieRecord pi d ts n).deleted = d := by
  unfold genTrieRecord
  split <;> rfl

theorem genTrie_false_no_del (t : STrie) (pi : Nat) (ts : Option Nat) (fd : Bool) :
    (genTrie t pi false ts fd).any (fun r => r.deleted) = false := by
  unfold genTrie
  simp [Function.comp, genTrieRecord_deleted]

theorem genRow_deleted (pi : Nat) (d : Bool) (ts : Option Nat) (r : Row) :
    (genRow pi d ts r).deleted = d := by
  unfold genRow
  split <;> rfl

theorem genRows_false_no_del (rs : List Row) (pi : Nat) (ts : Option Nat) :
    ((rs.map (genRow pi false ts)).any (fun r => r.deleted)) = false := by
  simp [Function.comp, genRow_deleted]

theorem generate_false_no_tomb (o : ObjsOrTrie) (pi : Nat) (ts : Option Nat) (fd : Bool)
    (objs : List ObjRecord)
    (h : generate_object_list o pi false ts fd = .ok objs) :
    isTombEv (Ev.mergeItems c objs) = false := by
  cases o with
  | trie t =>
    simp only [generate_object_list, Except.ok.injEq] at h
    subst h
    simp [isTombEv, genTrie_false_no_del]
  | rows rs =>
    simp only [generate_object_list, Except.ok.injEq] at h
    subst h
    simp [isTombEv, genRows_false_no_del]
  | dicts ds =>
    cases ds with
    | nil =>
      simp only [generate_object_list, Except.ok.injEq] at h
      subst h
      simp [isTombEv]
    | cons d ds => simp [generate_object_list] at h

theorem get_shard_broker_calm (w : World) (px a c : Str) (pi : Nat) (st : St) :
    calm (get_shard_broker w px a c pi st).tr = true := by
  unfold get_shard_broker
  split
  · rfl
  split
  · rfl
  cases hh : w.handoff (w.getPart a c) with
  | none => simp [hh, calm, isTombEv, isSpawnEv, isJoinEv]
  | some nid =>
    cases hex : w.dbExists c <;>
      simp [hh, hex, calm, isTombEv, isSpawnEv, isJoinEv]

theorem stampIfNeeded_calm (w : World) (cont px : Str) (st : St) :
    calm (stampIfNeeded w cont px st).2 = true := by
  unfold stampIfNeeded
  split <;> simp [calm, isTombEv, isSpawnEv, isJoinEv]

theorem get_and_fill_calm (w : World) (px : Str) (o : ObjsOrTrie) (a c : Str)
    (pi : Nat) (st : St) :
    calm (get_and_fill_shard_broker w px o a c pi false st).tr = true := by
  have hb := get_shard_broker_calm w px (get_container_shard_path a c px).1
    (get_container_shard_path a c px).2 pi st
  have hst := stampIfNeeded_calm w (get_container_shard_path a c px).2 px
    (get_shard_broker w px (get_container_shard_path a c px).1
      (get_container_shard_path a c px).2 pi st).st
  unfold get_and_fill_shard_broker
  cases hres : (get_shard_broker w px (get_container_shard_path a c px).1
      (get_container_shard_path a c px).2 pi st).res with
  | error e =>
    cases e <;>
      simp_all [calm_append, calm, isTombEv, isSpawnEv, isJoinEv]
  | ok bi =>
    cases hgen : generate_object_list o pi false none false with
    | error e2 =>
      simp [hres, hgen, calm_append, hb, hst]
    | ok objs =>
      have hm : calm [Ev.mergeItems (get_container_shard_path a c px).2 objs] = true := by
        simp [calm, isSpawnEv, isJoinEv, generate_false_no_tomb _ _ _ _ _ hgen]
      simp [hres, hgen, calm_append, hb, hst, hm]

theorem find_pfx_calm (w : World) : ∀ (fuel : Nat) (trie : STrie) (key a c : Str)
    (cache : List (Str × STrie)),
    calm (find_shard_container_pfx w fuel trie key a c cache).1 = true := by
  intro fuel
  induction fuel with
  | zero => intro trie key a c cache; rfl
  | succ n ih =>
    intro trie key a c cache
    unfold find_shard_container_pfx
    cases hgi : trie_get_item trie key with
    | ok v => simp [hgi, calm]
    | error e =>
      cases e with
      | distBranch dk =>
        cases hc : (cache.find? (fun e => e.1 == dk)).map (fun e => e.2) with
        | some t => simp [hgi, hc, ih]
        | none =>
          cases hf : w.fetchTrie (get_container_shard_path a c dk).1
              (get_container_shard_path a c dk).2 with
          | error u =>
            simp [hgi, hc, hf, calm, isTombEv, isSpawnEv, isJoinEv]
          | ok t0 =>
            simp [hgi, hc, hf, calm, isTombEv, isSpawnEv, isJoinEv]
            have := ih (if t0.nodes.isEmpty then { t0 with root_key := dk } else t0).trim_trunk
              key a c ((dk, (if t0.nodes.isEmpty then { t0 with root_key := dk } else t0).trim_trunk) :: cache)
            simpa [calm] using this
      | deviceUnavailable => simp [hgi, calm]
      | typeError => simp [hgi, calm]
      | keyError => simp [hgi, calm]
      | timeout => simp [hgi, calm]
      | fuelOut => simp [hgi, calm]

theorem routeMisplaced_calm (w : World) (fuel : Nat) (trie : STrie) (a c : Str) :
    ∀ (ms : List (Str × Str × Row)) (cache : List (Str × STrie))
    (gs : List (Str × List Row)),
    calm (routeMisplaced w fuel trie a c ms cache gs).1 = true := by
  intro ms
  induction ms with
  | nil => intro cache gs; rfl
  | cons m ms ih =>
    intro cache gs
    obtain ⟨obj, dk, data⟩ := m
    have hcalm := find_pfx_calm w fuel trie obj a c cache
    rcases hf : find_shard_container_pfx w fuel trie obj a c cache with ⟨evs, res⟩
    rw [hf] at hcalm
    cases res with
    | error e => simp [routeMisplaced, hf]; exact hcalm
    | ok pc =>
      obtain ⟨p, cache2⟩ := pc
      simp only [routeMisplaced, hf, calm_append]
      simp [hcalm, ih]

theorem insertGroup_ne_nil (gs : List (Str × List Row)) (p : Str) (r : Row) :
    insertGroup gs p r ≠ [] := by
  cases gs with
  | nil => simp [insertGroup]
  | cons g gtl =>
    obtain ⟨q, rs⟩ := g
    unfold insertGroup
    split <;> simp

theorem routeMisplaced_ne_nil (w : World) (fuel : Nat) (trie : STrie) (a c : Str) :
    ∀ (ms : List (Str × Str × Row)) (cache : List (Str × STrie))
    (gs gs2 : List (Str × List Row)),
    (routeMisplaced w fuel trie a c ms cache gs).2 = .ok gs2 →
    (gs ≠ [] ∨ ms ≠ []) → gs2 ≠ [] := by
  intro ms
  induction ms with
  | nil =>
    intro cache gs gs2 h hne
    simp only [routeMisplaced, Except.ok.injEq] at h
    rcases hne with h1 | h1
    · rw [← h]; exact h1
    · simp at h1
  | cons m ms ih =>
    intro cache gs gs2 h hne
    obtain ⟨obj, dk, data⟩ := m
    rcases hf : find_shard_container_pfx w fuel trie obj a c cache with ⟨evs, res⟩
    cases res with
    | error e => simp [routeMisplaced, hf] at h
    | ok pc =>
      obtain ⟨p, cache2⟩ := pc
      simp only [routeMisplaced, hf] at h
      exact ih cache2 (insertGroup gs p data) gs2 h (Or.inl (insertGroup_ne_nil gs p data))

theorem fillAndSpawn_tombFree (w : World) (a c : Str) (pi : Nat) :
    ∀ (gs : List (Str × List Row)) (st : St),
    tombFree (fillAndSpawnAll w a c pi gs st).tr = true := by
  intro gs
  induction gs with
  | nil => intro st; rfl
  | cons g gs ih =>
    intro st
    obtain ⟨p, objs⟩ := g
    have h1 := calm_tombFree _ (get_and_fill_calm w p (.rows objs) a c pi st)
    unfold fillAndSpawnAll
    cases hres : (get_and_fill_shard_broker w p (.rows objs) a c pi false st).res with
    | error e => simpa [hres] using h1
    | ok ob =>
      cases ob with
      | none => simpa [hres] using h1
      | some bi =>
        have h2 := ih (get_and_fill_shard_broker w p (.rows objs) a c pi false st).st
        simp only [hres, tombFree_append, Bool.and_eq_true]
        refine ⟨h1, ?_⟩
        simpa [tombFree, isTombEv] using h2

theorem fillAndSpawn_joinFree (w : World) (a c : Str) (pi : Nat) :
    ∀ (gs : List (Str × List Row)) (st : St),
    joinFree (fillAndSpawnAll w a c pi gs st).tr = true := by
  intro gs
  induction gs with
  | nil => intro st; rfl
  | cons g gs ih =>
    intro st
    obtain ⟨p, objs⟩ := g
    have h1 := calm_joinFree _ (get_and_fill_calm w p (.rows objs) a c pi st)
    unfold fillAndSpawnAll
    cases hres : (get_and_fill_shard_broker w p (.rows objs) a c pi false st).res with
    | error e => simpa [hres] using h1
    | ok ob =>
      cases ob with
      | none => simpa [hres] using h1
      | some bi =>
        have h2 := ih (get_and_fill_shard_broker w p (.rows objs) a c pi false st).st
        simp only [hres, joinFree_append, Bool.and_eq_true]
        refine ⟨h1, ?_⟩
        simpa [joinFree, isJoinEv] using h2

theorem fillAndSpawn_gOut (w : World) (a c : Str) (pi : Nat) (p : Str) (objs : List Row)
    (gs : List (Str × List Row)) (st : St)
    (h : (fillAndSpawnAll w a c pi ((p, objs) :: gs) st).res = .ok ()) :
    gOut GSt.start (fillAndSpawnAll w a c pi ((p, objs) :: gs) st).tr = GSt.spawned := by
  have hcalm := get_and_fill_calm w p (.rows objs) a c pi st
  unfold fillAndSpawnAll at h ⊢
  cases hres : (get_and_fill_shard_broker w p (.rows objs) a c pi false st).res with
  | error e => simp [hres] at h
  | ok ob =>
    cases ob with
    | none => simp [hres] at h
    | some bi =>
      simp only [hres]
      rw [gOut_append]
      rw [gOut_stay _ (calm_spawnFree _ hcalm) (calm_joinFree _ hcalm)]
      have hjf := fillAndSpawn_joinFree w a c pi gs
        (get_and_fill_shard_broker w p (.rows objs) a c pi false st).st
      simp only [gOut, gstep, isSpawnEv]
      exact gOut_spawned_of_joinFree _ hjf

theorem sateGo_cons_join (q : Bool) (t : List Ev) :
    sateGo q (Ev.waitAll :: t) = sateGo false t := by
  simp [sateGo, sstep, isTombEv, isJoinEv]

theorem guardGo_cons (s : GSt) (e : Ev) (t : List Ev) (ht : isTombEv e = false) :
    guardGo s (e :: t) = guardGo (gstep s e) t := by
  simp [guardGo, ht]

theorem spawnFree_delEvs (cs : List Str) :
    spawnFree (cs.map Ev.spawnDeleteDb) = true := by
  induction cs with
  | nil => rfl
  | cons c cs ih => simpa [spawnFree, isSpawnEv] using ih

theorem tombFree_delEvs (cs : List Str) :
    tombFree (cs.map Ev.spawnDeleteDb) = true := by
  induction cs with
  | nil => rfl
  | cons c cs ih => simpa [tombFree, isTombEv] using ih

theorem joinFree_delEvs (cs : List Str) :
    joinFree (cs.map Ev.spawnDeleteDb) = true := by
  induction cs with
  | nil => rfl
  | cons c cs ih => simpa [joinFree, isJoinEv] using ih

theorem tombFree_ctAdds (adds : List (Str × Bool × Row)) :
    tombFree (adds.map (fun a => Ev.ctAdd a.1 a.2.1)) = true := by
  rw [tombFree, List.all_eq_true]
  intro e he
  rw [List.mem_map] at he
  obtain ⟨a, -, rfl⟩ := he
  rfl

theorem calm_ctAdds (adds : List (Str × Bool × Row)) :
    calm (adds.map (fun a => Ev.ctAdd a.1 a.2.1)) = true := by
  rw [calm, List.all_eq_true]
  intro e he
  rw [List.mem_map] at he
  obtain ⟨a, -, rfl⟩ := he
  rfl

theorem tombFree_cons (e : Ev) (t : List Ev) :
    tombFree (e :: t) = (!isTombEv e && tombFree t) := by
  simp [tombFree]

theorem calm_cons (e : Ev) (t : List Ev) :
    calm (e :: t) = ((!isTombEv e && !isSpawnEv e && !isJoinEv e) && calm t) := by
  simp [calm]

theorem sateGo_wl (q : Bool) (m : LogMsg) : sateGo q [Ev.waitAll, Ev.log m] = true := by
  cases q <;> rfl

theorem pendOut_wl (q : Bool) (m : LogMsg) : pendOut q [Ev.waitAll, Ev.log m] = false := rfl

theorem sateGo_wml (tgt : Str) (its : List ObjRecord) (m : LogMsg) :
    sateGo false [Ev.waitAll, Ev.mergeItems tgt its, Ev.log m] = true := rfl

theorem gOut_sw (m : LogMsg) : gOut GSt.spawned [Ev.waitAll, Ev.log m] = GSt.joined := rfl

theorem sateGo_log (q : Bool) (m : LogMsg) : sateGo q [Ev.log m] = true := by
  cases q <;> rfl

theorem pendOut_log (q : Bool) (m : LogMsg) : pendOut q [Ev.log m] = q := by
  cases q <;> rfl

theorem sateGo_w (q : Bool) : sateGo q [Ev.waitAll] = true := by
  cases q <;> rfl

theorem guardGo_log (s : GSt) (m : LogMsg) : guardGo s [Ev.log m] = true := by
  cases s <;> rfl

theorem gOut_log (s : GSt) (m : LogMsg) : gOut s [Ev.log m] = s := by
  cases s <;> rfl

theorem guardGo_wl (s : GSt) (m : LogMsg) : guardGo s [Ev.waitAll, Ev.log m] = true := by
  cases s <;> rfl

theorem guardGo_w (s : GSt) : guardGo s [Ev.waitAll] = true := by
  cases s <;> rfl

theorem deal_sate (w : World) (fuel : Nat) (parent : Db)
    (misplaced : List (Str × Str × Row)) (a c : Str) (pi : Nat) (st : St) (p : Bool) :
    sateGo p (deal_with_misplaced_objects w fuel parent misplaced a c pi st).tr = true := by
  unfold deal_with_misplaced_objects
  cases hft : w.fetchTrie a c with
  | error u =>
    simp only [hft]
    exact sateGo_of_tombFree _ (by simp [tombFree, isTombEv]) p
  | ok trie =>
    simp only [hft]
    have hevs := routeMisplaced_calm w fuel trie a c misplaced [([], trie)] []
    rcases hrm : routeMisplaced w fuel trie a c misplaced [([], trie)] [] with ⟨evs, res⟩
    rw [hrm] at hevs
    have hevsS : ∀ q, sateGo q evs = true :=
      fun q => sateGo_of_tombFree _ (calm_tombFree _ hevs) q
    have hevsP : ∀ q, pendOut q evs = q :=
      fun q => pendOut_stay _ (calm_spawnFree _ hevs) (calm_joinFree _ hevs) q
    cases res with
    | error e =>
      simp only [hrm]
      simp [sateGo, sstep, isTombEv, isSpawnEv, isJoinEv, hevsS]
    | ok groups =>
      have hfillT := fillAndSpawn_tombFree w a c pi groups st
      have h1 : ∀ q, sateGo q (fillAndSpawnAll w a c pi groups st).tr = true :=
        fun q => sateGo_of_tombFree _ hfillT q
      cases hfres : (fillAndSpawnAll w a c pi groups st).res with
      | error e =>
        simp only [hrm, hfres]
        simp [sateGo, sstep, isTombEv, isSpawnEv, isJoinEv, sateGo_append,
          pendOut_append, pendOut, hevsS, hevsP, h1]
      | ok u =>
        cases hcl : (fillAndSpawnAll w a c pi groups st).st.cleanups with
        | none =>
          simp only [hrm, hfres, hcl]
          simp [sateGo, sstep, isTombEv, isSpawnEv, isJoinEv, sateGo_append,
            pendOut_append, pendOut, hevsS, hevsP, h1]
        | some cs =>
          have hds : pendOut false (cs.map Ev.spawnDeleteDb) = false :=
            pendOut_false_of_spawnFree _ (spawnFree_delEvs cs)
          have hsds : ∀ q, sateGo q (cs.map Ev.spawnDeleteDb) = true :=
            fun q => sateGo_of_tombFree _ (tombFree_delEvs cs) q
          simp only [hrm, hfres, hcl]
          simp [sateGo, sstep, isTombEv, isSpawnEv, isJoinEv, sateGo_append,
            pendOut_append, pendOut, hevsS, hevsP, h1, hds, hsds]

theorem deal_guard_start (w : World) (fuel : Nat) (parent : Db)
    (misplaced : List (Str × Str × Row)) (a c : Str) (pi : Nat) (st : St) :
    guardGo GSt.start (deal_with_misplaced_objects w fuel parent misplaced a c pi st).tr
      = true := by
  unfold deal_with_misplaced_objects
  cases hft : w.fetchTrie a c with
  | error u =>
    simp only [hft]
    exact guardGo_of_tombFree _ (by simp [tombFree, isTombEv]) _
  | ok trie =>
    simp only [hft]
    have hevs := routeMisplaced_calm w fuel trie a c misplaced [([], trie)] []
    rcases hrm : routeMisplaced w fuel trie a c misplaced [([], trie)] [] with ⟨evs, res⟩
    rw [hrm] at hevs
    have hevsG : ∀ s, guardGo s evs = true :=
      fun s => guardGo_of_tombFree _ (calm_tombFree _ hevs) s
    have hevsO : ∀ s, gOut s evs = s :=
      fun s => gOut_stay _ (calm_spawnFree _ hevs) (calm_joinFree _ hevs) s
    cases res with
    | error e =>
      simp only [hrm]
      simp [guardGo, gstep, isTombEv, isSpawnEv, isJoinEv, hevsG]
    | ok groups =>
      have hfillT := fillAndSpawn_tombFree w a c pi groups st
      have hg1 : ∀ s, guardGo s (fillAndSpawnAll w a c pi groups st).tr = true :=
        fun s => guardGo_of_tombFree _ hfillT s
      cases hfres : (fillAndSpawnAll w a c pi groups st).res with
      | error e =>
        simp only [hrm, hfres]
        simp [guardGo, gstep, isTombEv, isSpawnEv, isJoinEv, guardGo_append,
          gOut_append, gOut, hevsG, hevsO, hg1]
      | ok u =>
        cases hcl : (fillAndSpawnAll w a c pi groups st).st.cleanups with
        | none =>
          simp only [hrm, hfres, hcl]
          simp [guardGo, gstep, isTombEv, isSpawnEv, isJoinEv, guardGo_append,
            gOut_append, gOut, hevsG, hevsO, hg1]
        | some cs =>
          have hdsg : ∀ s, guardGo s (cs.map Ev.spawnDeleteDb) = true :=
            fun s => guardGo_of_tombFree _ (tombFree_delEvs cs) s
          have hdstay : ∀ s, gOut s (cs.map Ev.spawnDeleteDb) = s :=
            fun s => gOut_stay _ (spawnFree_delEvs cs) (joinFree_delEvs cs) s
          cases hmp : misplaced with
          | nil =>
            simp only [hrm, hfres, hcl, hmp]
            simp [guardGo, gstep, isTombEv, isSpawnEv, isJoinEv, guardGo_append,
              gOut_append, gOut, hevsG, hevsO, hg1, hdsg, hdstay]
          | cons m ms =>
            have hgne : groups ≠ [] := by
              refine routeMisplaced_ne_nil w fuel trie a c misplaced _ [] groups
                (by rw [hrm]) (Or.inr ?_)
              rw [hmp]; simp
            obtain ⟨g, gt, hg⟩ : ∃ g gt, groups = g :: gt := by
              cases groups with
              | nil => exact absurd rfl hgne
              | cons g gt => exact ⟨g, gt, rfl⟩
            obtain ⟨p2, objs2⟩ := g
            have hfillG : gOut GSt.start (fillAndSpawnAll w a c pi groups st).tr
                = GSt.spawned := by
              rw [hg]
              rw [hg] at hfres
              exact fillAndSpawn_gOut w a c pi p2 objs2 gt st hfres
            simp only [hrm, hfres, hcl]
            simp [guardGo, gstep, isTombEv, isSpawnEv, isJoinEv, guardGo_append,
              gOut_append, gOut, hevsG, hevsO, hg1, hdsg, hdstay, hfillG,
              gOut_joined, guardGo_joined]

theorem deal_guard (w : World) (fuel : Nat) (parent : Db)
    (misplaced : List (Str × Str × Row)) (a c : Str) (pi : Nat) (st : St) (s : GSt) :
    guardGo s (deal_with_misplaced_objects w fuel parent misplaced a c pi st).tr = true :=
  guardGo_mono _ GSt.start s (Nat.zero_le _)
    (deal_guard_start w fuel parent misplaced a c pi st)

theorem add_other_spawnFree (w : World) (db : Db) (cand tgt : Str) (del : Bool)
    (ts : Option Nat) (fd : Bool) : ∀ (fuel : Nat) (marker : Str),
    spawnFree (add_other_nodes w db cand tgt del ts fd fuel marker).1 = true := by
  intro fuel
  induction fuel with
  | zero => intro marker; rfl
  | succ n ih =>
    intro marker
    unfold add_other_nodes
    split
    · rfl
    · simpa [spawnFree, isSpawnEv] using ih _

theorem add_other_joinFree (w : World) (db : Db) (cand tgt : Str) (del : Bool)
    (ts : Option Nat) (fd : Bool) : ∀ (fuel : Nat) (marker : Str),
    joinFree (add_other_nodes w db cand tgt del ts fd fuel marker).1 = true := by
  intro fuel
  induction fuel with
  | zero => intro marker; rfl
  | succ n ih =>
    intro marker
    unfold add_other_nodes
    split
    · rfl
    · simpa [joinFree, isJoinEv] using ih _

theorem add_other_tombFree (w : World) (db : Db) (cand tgt : Str)
    (ts : Option Nat) (fd : Bool) : ∀ (fuel : Nat) (marker : Str),
    tombFree (add_other_nodes w db cand tgt false ts fd fuel marker).1 = true := by
  intro fuel
  induction fuel with
  | zero => intro marker; rfl
  | succ n ih =>
    intro marker
    unfold add_other_nodes
    split
    · rfl
    · simpa [tombFree, isTombEv, genTrie_false_no_del] using ih _

theorem stageA_sate (w : World) (fuel : Nat) (db : Db) (ra rc : Str) (isRoot : Bool)
    (cand : Str) (st : St) (p : Bool) :
    sateGo p (splitStageA w fuel db ra rc isRoot cand st).tr = true := by
  unfold splitStageA
  cases hgi : trie_get_item (db.buildTrie cand []) cand with
  | error e => simp [hgi, sateGo]
  | ok nd =>
    cases nd with
    | none => simp [hgi, sateGo]
    | some node =>
      simp only [hgi]
      cases hnd : node.flag.isDist with
      | true => simp [hnd, sateGo, sstep, isTombEv, isSpawnEv, isJoinEv]
      | false =>
        have hfc := get_and_fill_calm w (split_trie (db.buildTrie cand []) cand w.now).1.root_key
          (.trie (split_trie (db.buildTrie cand []) cand w.now).1) ra rc db.policyIndex st
        have hfS : ∀ q, sateGo q (get_and_fill_shard_broker w
            (split_trie (db.buildTrie cand []) cand w.now).1.root_key
            (.trie (split_trie (db.buildTrie cand []) cand w.now).1) ra rc
            db.policyIndex false st).tr = true :=
          fun q => sateGo_of_tombFree _ (calm_tombFree _ hfc) q
        have hfP : ∀ q, pendOut q (get_and_fill_shard_broker w
            (split_trie (db.buildTrie cand []) cand w.now).1.root_key
            (.trie (split_trie (db.buildTrie cand []) cand w.now).1) ra rc
            db.policyIndex false st).tr = q :=
          fun q => pendOut_stay _ (calm_spawnFree _ hfc) (calm_joinFree _ hfc) q
        cases hfres : (get_and_fill_shard_broker w
            (split_trie (db.buildTrie cand []) cand w.now).1.root_key
            (.trie (split_trie (db.buildTrie cand []) cand w.now).1) ra rc
            db.policyIndex false st).res with
        | error e =>
          simp only [hfres]
          simp [sateGo, sstep, isTombEv, isSpawnEv, isJoinEv, hfS]
        | ok ob =>
          cases ob with
          | none =>
            simp only [hfres]
            simp [sateGo, sstep, isTombEv, isSpawnEv, isJoinEv, hfS]
          | some bi =>
            simp only [hfres]
            rcases hao : add_other_nodes w db cand bi.container false none false fuel
              (if (db.buildTrie cand []).data_node_count == w.limit
                then (db.buildTrie cand []).get_last_node else []) with ⟨evs, ares⟩
            have haoS : ∀ q, sateGo q evs = true := by
              have := add_other_tombFree w db cand bi.container none false fuel
                (if (db.buildTrie cand []).data_node_count == w.limit
                  then (db.buildTrie cand []).get_last_node else [])
              rw [hao] at this
              exact fun q => sateGo_of_tombFree _ this q
            have haoP : ∀ q, pendOut q evs = q := by
              have h1 := add_other_spawnFree w db cand bi.container false none false fuel
                (if (db.buildTrie cand []).data_node_count == w.limit
                  then (db.buildTrie cand []).get_last_node else [])
              have h2 := add_other_joinFree w db cand bi.container false none false fuel
                (if (db.buildTrie cand []).data_node_count == w.limit
                  then (db.buildTrie cand []).get_last_node else [])
              rw [hao] at h1 h2
              exact fun q => pendOut_stay _ h1 h2 q
            cases ares with
            | error e2 =>
              simp only [hao]
              simp [sateGo, sstep, isTombEv, isSpawnEv, isJoinEv, sateGo_append,
                pendOut_append, pendOut, hfS, hfP, haoS, haoP]
            | ok u2 =>
              cases hco : w.createOk bi.account bi.container with
              | false =>
                cases hgi2 : trie_get_item (split_trie (db.buildTrie cand []) cand w.now).2
                    node.full_key with
                | error e =>
                  simp only [hao, hco, hgi2]
                  simp [sateGo, sstep, isTombEv, isSpawnEv, isJoinEv, sateGo_append,
                    pendOut_append, pendOut, hfS, hfP, haoS, haoP]
                | ok d2 =>
                  cases d2 with
                  | none =>
                    simp only [hao, hco, hgi2]
                    simp [sateGo, sstep, isTombEv, isSpawnEv, isJoinEv, sateGo_append,
                      pendOut_append, pendOut, hfS, hfP, haoS, haoP]
                  | some distNode =>
                    simp only [hao, hco, hgi2]
                    simp [sateGo, sstep, isTombEv, isSpawnEv, isJoinEv, sateGo_append,
                      pendOut_append, pendOut, hfS, hfP, haoS, haoP]
              | true =>
                cases hgi2 : trie_get_item (split_trie (db.buildTrie cand []) cand w.now).2
                    node.full_key with
                | error e =>
                  simp only [hao, hco, hgi2]
                  simp [sateGo, sstep, isTombEv, isSpawnEv, isJoinEv, sateGo_append,
                    pendOut_append, pendOut, hfS, hfP, haoS, haoP]
                | ok d2 =>
                  cases d2 with
                  | none =>
                    simp only [hao, hco, hgi2]
                    simp [sateGo, sstep, isTombEv, isSpawnEv, isJoinEv, sateGo_append,
                      pendOut_append, pendOut, hfS, hfP, haoS, haoP]
                  | some distNode =>
                    simp only [hao, hco, hgi2]
                    simp [sateGo, sstep, isTombEv, isSpawnEv, isJoinEv, sateGo_append,
                      pendOut_append, pendOut, hfS, hfP, haoS, haoP]

theorem trie_get_item_ok_some (t : STrie) (k : Str) (n : TNode)
    (h : trie_get_item t k = .ok (some n)) : n.full_key = k := by
  unfold trie_get_item at h
  cases hf : t.nodes.find? (fun n => n.full_key == k) with
  | some m =>
    rw [hf] at h
    simp only [Except.ok.injEq, Option.some.injEq] at h
    subst h
    have := List.find?_some hf
    simpa using this
  | none =>
    rw [hf] at h
    cases hf2 : t.nodes.find?
        (fun n => n.flag.isDist && !(n.full_key == k) && keyStarts n.full_key k) with
    | some m => rw [hf2] at h; simp at h
    | none => rw [hf2] at h; simp at h

theorem split_parent_item (t : STrie) (pk : Str) (now : Nat) :
    trie_get_item (split_trie t pk now).2 pk =
      .ok (some ⟨pk, Flag.distBranch, now, 0, [], []⟩) := by
  unfold trie_get_item split_trie
  have hnone : (t.nodes.filter (fun n => !keyStarts pk n.full_key)).find?
      (fun n => n.full_key == pk) = none := by
    rw [List.find?_eq_none]
    intro x hx
    rw [List.mem_filter] at hx
    intro hbeq
    have hx2 := hx.2
    have : x.full_key = pk := by simpa using hbeq
    rw [this] at hx2
    rw [keyStarts_refl] at hx2
    simp at hx2
  have happ : ((t.nodes.filter (fun n => !keyStarts pk n.full_key)) ++
      [(⟨pk, Flag.distBranch, now, 0, [], []⟩ : TNode)]).find?
      (fun n => n.full_key == pk) = some ⟨pk, Flag.distBranch, now, 0, [], []⟩ := by
    rw [List.find?_append, hnone]
    simp
  simp [happ]

theorem stageA_guard_start (w : World) (fuel : Nat) (db : Db) (ra rc : Str)
    (isRoot : Bool) (cand : Str) (st : St) :
    guardGo GSt.start (splitStageA w fuel db ra rc isRoot cand st).tr = true := by
  unfold splitStageA
  cases hgi : trie_get_item (db.buildTrie cand []) cand with
  | error e => simp [hgi, guardGo]
  | ok nd =>
    cases nd with
    | none => simp [hgi, guardGo]
    | some node =>
      simp only [hgi]
      cases hnd : node.flag.isDist with
      | true => simp [hnd, guardGo, gstep, isTombEv, isSpawnEv, isJoinEv]
      | false =>
        have hfc := get_and_fill_calm w (split_trie (db.buildTrie cand []) cand w.now).1.root_key
          (.trie (split_trie (db.buildTrie cand []) cand w.now).1) ra rc db.policyIndex st
        have hfG : ∀ s, guardGo s (get_and_fill_shard_broker w
            (split_trie (db.buildTrie cand []) cand w.now).1.root_key
            (.trie (split_trie (db.buildTrie cand []) cand w.now).1) ra rc
            db.policyIndex false st).tr = true :=
          fun s => guardGo_of_tombFree _ (calm_tombFree _ hfc) s
        have hfO : ∀ s, gOut s (get_and_fill_shard_broker w
            (split_trie (db.buildTrie cand []) cand w.now).1.root_key
            (.trie (split_trie (db.buildTrie cand []) cand w.now).1) ra rc
            db.policyIndex false st).tr = s :=
          fun s => gOut_stay _ (calm_spawnFree _ hfc) (calm_joinFree _ hfc) s
        cases hfres : (get_and_fill_shard_broker w
            (split_trie (db.buildTrie cand []) cand w.now).1.root_key
            (.trie (split_trie (db.buildTrie cand []) cand w.now).1) ra rc
            db.policyIndex false st).res with
        | error e =>
          simp only [hfres]
          simp [guardGo, gstep, isTombEv, isSpawnEv, isJoinEv, hfG]
        | ok ob =>
          cases ob with
          | none =>
            simp only [hfres]
            simp [guardGo, gstep, isTombEv, isSpawnEv, isJoinEv, hfG]
          | some bi =>
            simp only [hfres]
            rcases hao : add_other_nodes w db cand bi.container false none false fuel
              (if (db.buildTrie cand []).data_node_count == w.limit
                then (db.buildTrie cand []).get_last_node else []) with ⟨evs, ares⟩
            have haoT := add_other_tombFree w db cand bi.container none false fuel
              (if (db.buildTrie cand []).data_node_count == w.limit
                then (db.buildTrie cand []).get_last_node else [])
            have haoSf := add_other_spawnFree w db cand bi.container false none false fuel
              (if (db.buildTrie cand []).data_node_count == w.limit
                then (db.buildTrie cand []).get_last_node else [])
            have haoJf := add_other_joinFree w db cand bi.container false none false fuel
              (if (db.buildTrie cand []).data_node_count == w.limit
                then (db.buildTrie cand []).get_last_node else [])
            rw [hao] at haoT haoSf haoJf
            have haoG : ∀ s, guardGo s evs = true :=
              fun s => guardGo_of_tombFree _ haoT s
            have haoO : ∀ s, gOut s evs = s :=
              fun s => gOut_stay _ haoSf haoJf s
            cases ares with
            | error e2 =>
              simp only [hao]
              simp [guardGo, gstep, isTombEv, isSpawnEv, isJoinEv, guardGo_append,
                gOut_append, gOut, hfG, hfO, haoG, haoO]
            | ok u2 =>
              cases hco : w.createOk bi.account bi.container with
              | false =>
                cases hgi2 : trie_get_item (split_trie (db.buildTrie cand []) cand w.now).2
                    node.full_key with
                | error e =>
                  simp only [hao, hco, hgi2]
                  simp [guardGo, gstep, isTombEv, isSpawnEv, isJoinEv, guardGo_append,
                    gOut_append, gOut, hfG, hfO, haoG, haoO]
                | ok d2 =>
                  cases d2 with
                  | none =>
                    simp only [hao, hco, hgi2]
                    simp [guardGo, gstep, isTombEv, isSpawnEv, isJoinEv, guardGo_append,
                      gOut_append, gOut, hfG, hfO, haoG, haoO]
                  | some distNode =>
                    simp only [hao, hco, hgi2]
                    simp [guardGo, gstep, isTombEv, isSpawnEv, isJoinEv, guardGo_append,
                      gOut_append, gOut, hfG, hfO, haoG, haoO]
              | true =>
                cases hgi2 : trie_get_item (split_trie (db.buildTrie cand []) cand w.now).2
                    node.full_key with
                | error e =>
                  simp only [hao, hco, hgi2]
                  simp [guardGo, gstep, isTombEv, isSpawnEv, isJoinEv, guardGo_append,
                    gOut_append, gOut, hfG, hfO, haoG, haoO]
                | ok d2 =>
                  cases d2 with
                  | none =>
                    simp only [hao, hco, hgi2]
                    simp [guardGo, gstep, isTombEv, isSpawnEv, isJoinEv, guardGo_append,
                      gOut_append, gOut, hfG, hfO, haoG, haoO]
                  | some distNode =>
                    simp only [hao, hco, hgi2]
                    simp [guardGo, gstep, isTombEv, isSpawnEv, isJoinEv, guardGo_append,
                      gOut_append, gOut, hfG, hfO, haoG, haoO]

theorem stageA_out (w : World) (fuel : Nat) (db : Db) (ra rc : Str) (isRoot : Bool)
    (cand : Str) (st : St) (d : SplitData)
    (h : (splitStageA w fuel db ra rc isRoot cand st).res = .ok (some d)) :
    (∀ p, pendOut p (splitStageA w fuel db ra rc isRoot cand st).tr = false) ∧
    gOut GSt.start (splitStageA w fuel db ra rc isRoot cand st).tr = GSt.joined ∧
    (∃ X, (splitStageA w fuel db ra rc isRoot cand st).tr =
      X ++ [Ev.mergeItems db.container
        (genTrie (split_trie (db.buildTrie cand []) cand w.now).1 db.policyIndex true
          (some w.now) isRoot ++ d.distItem)]) ∧
    d.distItem = [⟨cand, w.now, 0, [], [], false, db.policyIndex, RecType.trieNode⟩] := by
  unfold splitStageA at h ⊢
  cases hgi : trie_get_item (db.buildTrie cand []) cand with
  | error e => simp [hgi] at h
  | ok nd =>
    cases nd with
    | none => simp [hgi] at h
    | some node =>
      have hkey : node.full_key = cand := trie_get_item_ok_some _ _ _ hgi
      simp only [hgi] at h ⊢
      cases hnd : node.flag.isDist with
      | true => simp [hnd] at h
      | false =>
        simp only [hnd] at h
        have hfc := get_and_fill_calm w (split_trie (db.buildTrie cand []) cand w.now).1.root_key
          (.trie (split_trie (db.buildTrie cand []) cand w.now).1) ra rc db.policyIndex st
        have hfP : ∀ q, pendOut q (get_and_fill_shard_broker w
            (split_trie (db.buildTrie cand []) cand w.now).1.root_key
            (.trie (split_trie (db.buildTrie cand []) cand w.now).1) ra rc
            db.policyIndex false st).tr = q :=
          fun q => pendOut_stay _ (calm_spawnFree _ hfc) (calm_joinFree _ hfc) q
        have hfO : ∀ s, gOut s (get_and_fill_shard_broker w
            (split_trie (db.buildTrie cand []) cand w.now).1.root_key
            (.trie (split_trie (db.buildTrie cand []) cand w.now).1) ra rc
            db.policyIndex false st).tr = s :=
          fun s => gOut_stay _ (calm_spawnFree _ hfc) (calm_joinFree _ hfc) s
        cases hfres : (get_and_fill_shard_broker w
            (split_trie (db.buildTrie cand []) cand w.now).1.root_key
            (.trie (split_trie (db.buildTrie cand []) cand w.now).1) ra rc
            db.policyIndex false st).res with
        | error e => simp [hfres] at h
        | ok ob =>
          cases ob with
          | none => simp [hfres] at h
          | some bi =>
            simp only [hfres] at h ⊢
            rcases hao : add_other_nodes w db cand bi.container false none false fuel
              (if (db.buildTrie cand []).data_node_count == w.limit
                then (db.buildTrie cand []).get_last_node else []) with ⟨evs, ares⟩
            have haoSf := add_other_spawnFree w db cand bi.container false none false fuel
              (if (db.buildTrie cand []).data_node_count == w.limit
                then (db.buildTrie cand []).get_last_node else [])
            have haoJf := add_other_joinFree w db cand bi.container false none false fuel
              (if (db.buildTrie cand []).data_node_count == w.limit
                then (db.buildTrie cand []).get_last_node else [])
            rw [hao] at haoSf haoJf
            have haoP : ∀ q, pendOut q evs = q :=
              fun q => pendOut_stay _ haoSf haoJf q
            have haoO : ∀ s, gOut s evs = s :=
              fun s => gOut_stay _ haoSf haoJf s
            cases ares with
            | error e2 => rw [hao] at h; simp at h
            | ok u2 =>
              rw [hao] at h
              simp only [hkey] at h ⊢
              rw [split_parent_item] at h ⊢
              simp only [Bool.false_eq_true, if_false, Except.ok.injEq,
                Option.some.injEq] at h
              subst h
              refine ⟨?_, ?_, ?_, ?_⟩
              · intro p
                cases hco : w.createOk bi.account bi.container <;>
                  simp [hco, pendOut, pendOut_append, sstep, isSpawnEv, isJoinEv,
                    hfP, haoP]
              · cases hco : w.createOk bi.account bi.container <;>
                  simp [hco, gOut, gOut_append, gstep, isSpawnEv, isJoinEv, hfO, haoO]
              · refine ⟨?_, ?_⟩
                · exact Ev.log LogMsg.shardingAt :: (get_and_fill_shard_broker w
                    (split_trie (db.buildTrie cand []) cand w.now).1.root_key
                    (.trie (split_trie (db.buildTrie cand []) cand w.now).1) ra rc
                    db.policyIndex false st).tr ++ evs ++
                    (Ev.createContainer bi.account bi.container ::
                      (if w.createOk bi.account bi.container then [] else [Ev.log .warnPut])) ++
                    [Ev.log .replicatingNew, Ev.spawnReplicate bi.container, Ev.waitAll,
                      Ev.log .cleanupOld]
                · rfl
              · simp [genTrie, STrie.important_nodes, genTrieRecord, Flag.isDist]

theorem stageB_sate (w : World) (fuel : Nat) (db : Db) (ra rc : Str) (isRoot : Bool)
    (cand : Str) (d : SplitData) (st : St) :
    sateGo false (splitStageB w fuel db ra rc isRoot cand d st).tr = true := by
  unfold splitStageB
  have hfc := get_and_fill_calm w [] (.dicts d.distItem) ra rc db.policyIndex st
  have hoS : ∀ q, sateGo q (get_and_fill_shard_broker w [] (.dicts d.distItem) ra rc
      db.policyIndex false st).tr = true :=
    fun q => sateGo_of_tombFree _ (calm_tombFree _ hfc) q
  have hoP : ∀ q, pendOut q (get_and_fill_shard_broker w [] (.dicts d.distItem) ra rc
      db.policyIndex false st).tr = q :=
    fun q => pendOut_stay _ (calm_spawnFree _ hfc) (calm_joinFree _ hfc) q
  have hsf0 : spawnFree (if d.parentTrie.data_node_count == w.limit
      then add_other_nodes w db cand db.container true (some d.ts) isRoot fuel
        d.parentTrie.get_last_node
      else (([], Except.ok ()) : List Ev × Except Exc Unit)).1 = true := by
    split
    · exact add_other_spawnFree w db cand db.container true (some d.ts) isRoot fuel
        d.parentTrie.get_last_node
    · rfl
  rcases hpg : (if d.parentTrie.data_node_count == w.limit
      then add_other_nodes w db cand db.container true (some d.ts) isRoot fuel
        d.parentTrie.get_last_node
      else (([], Except.ok ()) : List Ev × Except Exc Unit)) with ⟨evs, pres⟩
  rw [hpg] at hsf0
  have hevsS : sateGo false evs = true := sateGo_false_of_spawnFree _ hsf0
  have hevsP : pendOut false evs = false := pendOut_false_of_spawnFree _ hsf0
  cases pres with
  | error e =>
    simp only [hpg]
    simp [hevsS]
  | ok u2 =>
    cases hir : isRoot with
    | true =>
      simp only [hpg, hir]
      simp [sateGo, sstep, isTombEv, isSpawnEv, isJoinEv, sateGo_append,
        pendOut_append, pendOut, hevsS, hevsP]
    | false =>
      cases hres : (get_and_fill_shard_broker w [] (.dicts d.distItem) ra rc
          db.policyIndex false st).res with
      | error e =>
        simp only [hpg, hir, hres]
        simp [sateGo, sstep, isTombEv, isSpawnEv, isJoinEv, sateGo_append,
          pendOut_append, pendOut, hevsS, hevsP, hoS, hoP]
      | ok ob =>
        cases ob with
        | none =>
          simp only [hpg, hir, hres]
          simp [sateGo, sstep, isTombEv, isSpawnEv, isJoinEv, sateGo_append,
            pendOut_append, pendOut, hevsS, hevsP, hoS, hoP]
        | some bi =>
          simp only [hpg, hir, hres]
          simp [sateGo, sstep, isTombEv, isSpawnEv, isJoinEv, sateGo_append,
            pendOut_append, pendOut, hevsS, hevsP, hoS, hoP]

theorem splitPhase_sate (w : World) (fuel : Nat) (db : Db) (ra rc : Str) (isRoot : Bool)
    (cands : List Str) (st : St) (p : Bool) :
    sateGo p (splitPhase w fuel db ra rc isRoot cands st).tr = true := by
  cases cands with
  | nil => rfl
  | cons cand rest =>
    unfold splitPhase
    cases hres : (splitStageA w fuel db ra rc isRoot cand st).res with
    | error e =>
      simp only [hres]
      exact stageA_sate w fuel db ra rc isRoot cand st p
    | ok ob =>
      cases ob with
      | none =>
        simp only [hres]
        exact stageA_sate w fuel db ra rc isRoot cand st p
      | some d =>
        have hout := stageA_out w fuel db ra rc isRoot cand st d hres
        simp only [hres]
        rw [sateGo_append, hout.1 p]
        simp [stageA_sate, stageB_sate]

theorem splitPhase_guard_start (w : World) (fuel : Nat) (db : Db) (ra rc : Str)
    (isRoot : Bool) (cands : List Str) (st : St) :
    guardGo GSt.start (splitPhase w fuel db ra rc isRoot cands st).tr = true := by
  cases cands with
  | nil => rfl
  | cons cand rest =>
    unfold splitPhase
    cases hres : (splitStageA w fuel db ra rc isRoot cand st).res with
    | error e =>
      simp only [hres]
      exact stageA_guard_start w fuel db ra rc isRoot cand st
    | ok ob =>
      cases ob with
      | none =>
        simp only [hres]
        exact stageA_guard_start w fuel db ra rc isRoot cand st
      | some d =>
        have hout := stageA_out w fuel db ra rc isRoot cand st d hres
        simp only [hres]
        rw [guardGo_append, hout.2.1]
        simp [stageA_guard_start, guardGo_joined]

theorem splitPhase_guard (w : World) (fuel : Nat) (db : Db) (ra rc : Str)
    (isRoot : Bool) (cands : List Str) (st : St) (s : GSt) :
    guardGo s (splitPhase w fuel db ra rc isRoot cands st).tr = true :=
  guardGo_mono _ GSt.start s (Nat.zero_le _)
    (splitPhase_guard_start w fuel db ra rc isRoot cands st)

theorem processDbBody_sate (w : World) (fuel : Nat) (db : Db) (st : St) (p : Bool) :
    sateGo p (processDbBody w fuel db st).tr = true := by
  unfold processDbBody
  cases hpl : pageLoop w db fuel [] db.shardNodes with
  | error e =>
    simp only [hpl]
    exact sateGo_of_tombFree _ (tombFree_ctAdds _) p
  | ok pageAdds =>
    simp only [hpl]
    have hct : ∀ (adds : List (Str × Bool × Row)) q,
        sateGo q (adds.map (fun a => Ev.ctAdd a.1 a.2.1)) = true :=
      fun adds q => sateGo_of_tombFree _ (tombFree_ctAdds adds) q
    have hctP : ∀ (adds : List (Str × Bool × Row)) q,
        pendOut q (adds.map (fun a => Ev.ctAdd a.1 a.2.1)) = q :=
      fun adds q => pendOut_stay _
        (calm_spawnFree _ (calm_ctAdds adds)) (calm_joinFree _ (calm_ctAdds adds)) q
    generalize (if !(get_shard_root_path db).2 == db.container
      then db.shardNodes.map (fun r => (r.name, true, r)) else []) ++ pageAdds = adds
    cases hmis : (ctMisplaced adds).isEmpty with
    | true =>
      simp [hmis, sateGo, sstep, isTombEv, isSpawnEv, isJoinEv, sateGo_append,
        pendOut_append, pendOut, hct, hctP, splitPhase_sate]
    | false =>
      cases hdres : (deal_with_misplaced_objects w fuel db (ctMisplaced adds)
          (get_shard_root_path db).1 (get_shard_root_path db).2 db.policyIndex st).res with
      | error e =>
        simp [hmis, hdres, sateGo, sstep, isTombEv, isSpawnEv, isJoinEv, sateGo_append,
          pendOut_append, pendOut, hct, hctP, deal_sate]
      | ok u =>
        simp [hmis, hdres, sateGo, sstep, isTombEv, isSpawnEv, isJoinEv, sateGo_append,
          pendOut_append, pendOut, hct, hctP, deal_sate, splitPhase_sate]

theorem processDbBody_guard (w : World) (fuel : Nat) (db : Db) (st : St) (s : GSt) :
    guardGo s (processDbBody w fuel db st).tr = true := by
  unfold processDbBody
  cases hpl : pageLoop w db fuel [] db.shardNodes with
  | error e =>
    simp only [hpl]
    exact guardGo_of_tombFree _ (tombFree_ctAdds _) s
  | ok pageAdds =>
    simp only [hpl]
    have hct : ∀ (adds : List (Str × Bool × Row)) s2,
        guardGo s2 (adds.map (fun a => Ev.ctAdd a.1 a.2.1)) = true :=
      fun adds s2 => guardGo_of_tombFree _ (tombFree_ctAdds adds) s2
    generalize (if !(get_shard_root_path db).2 == db.container
      then db.shardNodes.map (fun r => (r.name, true, r)) else []) ++ pageAdds = adds
    cases hmis : (ctMisplaced adds).isEmpty with
    | true =>
      simp [hmis, guardGo, gstep, isTombEv, isSpawnEv, isJoinEv, guardGo_append,
        gOut_append, gOut, hct, splitPhase_guard]
    | false =>
      cases hdres : (deal_with_misplaced_objects w fuel db (ctMisplaced adds)
          (get_shard_root_path db).1 (get_shard_root_path db).2 db.policyIndex st).res with
      | error e =>
        simp [hmis, hdres, guardGo, gstep, isTombEv, isSpawnEv, isJoinEv, guardGo_append,
          gOut_append, gOut, hct, deal_guard]
      | ok u =>
        simp [hmis, hdres, guardGo, gstep, isTombEv, isSpawnEv, isJoinEv, guardGo_append,
          gOut_append, gOut, hct, deal_guard, splitPhase_guard]

theorem processDb_sate (w : World) (fuel : Nat) (db : Db) (st : St) (p : Bool) :
    sateGo p (processDb w fuel db st).tr = true := by
  unfold processDb
  split
  · simp [sateGo, sstep, isTombEv, isSpawnEv, isJoinEv, processDbBody_sate]
  · rfl

theorem processDb_guard (w : World) (fuel : Nat) (db : Db) (st : St) (s : GSt) :
    guardGo s (processDb w fuel db st).tr = true := by
  unfold processDb
  split
  · simp [guardGo, gstep, isTombEv, isSpawnEv, isJoinEv, processDbBody_guard]
  · rfl

theorem passLoop_sate (w : World) (fuel : Nat) : ∀ (dbs : List Db) (st : St) (p : Bool),
    sateGo p (passLoop w fuel dbs st).tr = true := by
  intro dbs
  induction dbs with
  | nil => intro st p; rfl
  | cons db dbs ih =>
    intro st p
    unfold passLoop
    split
    · cases hres : (processDb w fuel db st).res with
      | error e =>
        simp only [hres]
        exact processDb_sate w fuel db st p
      | ok u =>
        simp only [hres]
        simp [sateGo_append, processDb_sate, ih]
    · exact ih st p

theorem passLoop_guard (w : World) (fuel : Nat) : ∀ (dbs : List Db) (st : St) (s : GSt),
    guardGo s (passLoop w fuel dbs st).tr = true := by
  intro dbs
  induction dbs with
  | nil => intro st s; rfl
  | cons db dbs ih =>
    intro st s
    unfold passLoop
    split
    · cases hres : (processDb w fuel db st).res with
      | error e =>
        simp only [hres]
        exact processDb_guard w fuel db st s
      | ok u =>
        simp only [hres]
        simp [guardGo_append, processDb_guard, ih]
    · exact ih st s

theorem pass_sate (w : World) (fuel : Nat) (p : Bool) :
    sateGo p (one_shard_pass w fuel).tr = true := by
  unfold one_shard_pass
  cases hres : (passLoop w fuel w.dbs ⟨some [], some [], []⟩).res with
  | error e =>
    simp only [hres]
    simp [sateGo, sstep, isTombEv, isSpawnEv, isJoinEv, passLoop_sate]
  | ok u =>
    cases hcl : (passLoop w fuel w.dbs ⟨some [], some [], []⟩).st.cleanups with
    | none =>
      simp only [hres, hcl]
      simp [sateGo, sstep, isTombEv, isSpawnEv, isJoinEv, passLoop_sate]
    | some cs =>
      have hdelS : ∀ q, sateGo q (cs.map Ev.spawnDeleteDb) = true :=
        fun q => sateGo_of_tombFree _ (tombFree_delEvs cs) q
      have hdelP : ∀ q, pendOut q (cs.map Ev.spawnDeleteDb) = q :=
        fun q => pendOut_stay _ (spawnFree_delEvs cs) (joinFree_delEvs cs) q
      simp only [hres, hcl]
      simp [sateGo, sstep, isTombEv, isSpawnEv, isJoinEv, sateGo_append,
        pendOut_append, pendOut, passLoop_sate, hdelS, hdelP]

theorem pass_guard (w : World) (fuel : Nat) (s : GSt) :
    guardGo s (one_shard_pass w fuel).tr = true := by
  unfold one_shard_pass
  cases hres : (passLoop w fuel w.dbs ⟨some [], some [], []⟩).res with
  | error e =>
    simp only [hres]
    simp [guardGo, gstep, isTombEv, isSpawnEv, isJoinEv, passLoop_guard]
  | ok u =>
    cases hcl : (passLoop w fuel w.dbs ⟨some [], some [], []⟩).st.cleanups with
    | none =>
      simp only [hres, hcl]
      simp [guardGo, gstep, isTombEv, isSpawnEv, isJoinEv, passLoop_guard]
    | some cs =>
      have hdelG : ∀ s2, guardGo s2 (cs.map Ev.spawnDeleteDb) = true :=
        fun s2 => guardGo_of_tombFree _ (tombFree_delEvs cs) s2
      simp only [hres, hcl]
      simp [guardGo, gstep, isTombEv, isSpawnEv, isJoinEv, guardGo_append,
        gOut_append, gOut, passLoop_guard, hdelG]

/-- C1: In every sharding pass, for every `merge_items` call carrying a
tombstone — the parent's tombstone batch in the misplaced-object relocation
phase, and the parent's tombstone batch (including its paged continuations)
in the candidate-split phase — every replication task spawned earlier in the
pass has been joined (`waitall`) strictly before that merge, and at least one
replication spawn followed by a pool join precedes it.  So at no point are
records tombstoned in the parent while a shard DB holding them has not yet
been replicated. -/
theorem C1_replicate_before_tombstones (w : World) (fuel : Nat) :
    sateGo false (one_shard_pass w fuel).tr = true ∧
    guardGo GSt.start (one_shard_pass w fuel).tr = true :=
  ⟨pass_sate w fuel false, pass_guard w fuel GSt.start⟩

theorem cond_keyLe (a b : Str) : (keyStarts a b || keyLt a b) = keyLe a b := by
  rw [keyLe]
  exact keyStarts_or_lt a b

theorem consumeDists_eq (okey : Str) (dists : List Row) :
    consumeDists okey dists =
      (((dists.takeWhile (fun d => keyLe d.name okey)).filter
          (fun d => keyStarts d.name okey)).map (fun d => (d.name, true, d)),
       dists.dropWhile (fun d => keyLe d.name okey)) := by
  induction dists with
  | nil => rfl
  | cons d ds ih =>
    unfold consumeDists
    rw [List.takeWhile_cons, List.dropWhile_cons]
    cases hc : (keyStarts d.name okey || keyLt d.name okey) with
    | true =>
      have hle : keyLe d.name okey = true := by rw [← cond_keyLe]; exact hc
      rw [hle]
      simp only [if_true]
      rw [List.filter_cons]
      cases hs : keyStarts d.name okey with
      | true => simp [hc, hs, ih]
      | false => simp [hc, hs, ih]
    | false =>
      have hle : keyLe d.name okey = false := by rw [← cond_keyLe]; exact hc
      rw [hle]
      simp [hc]

/-- C2 (amended): the interleaving loop of the paging phase matches the
amended claim — before each object key is added, every outstanding
distributed-node record whose key is less than or equal to the object key is
consumed, but only those whose key is a prefix of the object key are added
(as distributed adds, before the object add); the others are dropped without
ever being added to the counting trie. -/
theorem C2_interleave_amended (dists objs : List Row) (marker : Str) :
    (processPage dists marker objs).adds = interleave_amended dists objs := by
  induction objs generalizing dists marker with
  | nil => rfl
  | cons o os ih =>
    unfold processPage interleave_amended
    rw [consumeDists_eq]
    simp only []
    rw [ih]

/-- C2 (counterexample): in a pass over a root container holding the object
`[2]` and the distributed-node row `[1]`, the distributed key `[1]` is less
than or equal to the object key `[2]` and outstanding when `[2]` is emitted,
yet it is never added to the counting trie as a distributed add — refuting
the claim that every outstanding distributed-node record with key less than
or equal to the object key is added before the object. -/
theorem C2_counterexample :
    keyLe [1] [2] = true ∧
    Ev.ctAdd [2] false ∈ (one_shard_pass w2 5).tr ∧
    Ev.ctAdd [1] true ∉ (one_shard_pass w2 5).tr := by
  decide

/-- C3: when a candidate split reaches the parent merge, the tombstone batch
covering the split subtree's nodes (generated with `filter_dist` equal to
`is_root`, so a root container keeps branch records out of the tombstones)
together with the single new distributed-branch `TRIE_NODE` record for the
candidate prefix is submitted to the parent broker in one single
`merge_items` call. -/
theorem C3_single_merge_call (w : World) (fuel : Nat) (db : Db) (ra rc : Str)
    (isRoot : Bool) (cand : Str) (st : St)
    (h : stageAMerged (splitStageA w fuel db ra rc isRoot cand st) = true) :
    ∃ X, (splitStageA w fuel db ra rc isRoot cand st).tr =
      X ++ [Ev.mergeItems db.container
        (genTrie (split_trie (db.buildTrie cand []) cand w.now).1 db.policyIndex true
          (some w.now) isRoot ++
          [⟨cand, w.now, 0, [], [], false, db.policyIndex, RecType.trieNode⟩])] := by
  unfold stageAMerged at h
  cases hres : (splitStageA w fuel db ra rc isRoot cand st).res with
  | error e => rw [hres] at h; simp at h
  | ok ob =>
    cases ob with
    | none => rw [hres] at h; simp at h
    | some d =>
      have hout := stageA_out w fuel db ra rc isRoot cand st d hres
      obtain ⟨X, hX⟩ := hout.2.2.1
      rw [hout.2.2.2] at hX
      exact ⟨X, hX⟩

/-- C3 (witness): the root-split world reaches the parent merge, and the
theorem's conclusion holds there. -/
theorem C3_witness :
    stageAMerged (splitStageA w3 9 db3 [7] [8] true [1] st0) = true ∧
    (∃ X, (splitStageA w3 9 db3 [7] [8] true [1] st0).tr =
      X ++ [Ev.mergeItems db3.container
        (genTrie (split_trie (db3.buildTrie [1] []) [1] w3.now).1 db3.policyIndex true
          (some w3.now) true ++
          [⟨[1], w3.now, 0, [], [], false, db3.policyIndex, RecType.trieNode⟩])]) :=
  ⟨by decide, C3_single_merge_call w3 9 db3 [7] [8] true [1] st0 (by decide)⟩

/-- C4 (counterexample): a DB whose `X-Container-Sysmeta-Sharding` metadata
is present with a value different from `On` (and with no
`X-Container-Sysmeta-Shard-Account`) is nevertheless processed by the pass —
the per-DB scan runs and logs — refuting the claim that such a DB is skipped
unchanged. -/
theorem C4_counterexample :
    mdGet db4.metadata .sharding = some ([9], 0) ∧ ([9] : Str) ≠ onVal ∧
    mdGet db4.metadata .shardAccount = none ∧
    Ev.log .scanStart ∈ (one_shard_pass w4 5).tr := by
  decide

/-- C4 (amended): a local container DB is processed if and only if its
metadata has the `X-Container-Sysmeta-Sharding` key present — with any value,
since a present `(value, timestamp)` metadata tuple is always truthy — or the
`X-Container-Sysmeta-Shard-Account` key present; a DB with neither is skipped
with no events and no state change. -/
theorem C4_presence_check (w : World) (fuel : Nat) (db : Db) (st : St) :
    (participates db = false → processDb w fuel db st = ⟨st, [], .ok ()⟩) ∧
    (participates db = true →
      ∃ t, (processDb w fuel db st).tr = Ev.log .scanStart :: t) := by
  constructor
  · intro h
    simp [processDb, h]
  · intro h
    simp only [processDb, h, if_true]
    exact ⟨_, rfl⟩

/-- C4 (witness): a DB with neither key is skipped unchanged, and a DB with a
non-`On` sharding value is processed. -/
theorem C4_witness :
    participates dbPlain = false ∧ processDb w2 3 dbPlain st0 = ⟨st0, [], .ok ()⟩ ∧
    participates db4 = true ∧
    (∃ t, (processDb w4 3 db4 st0).tr = Ev.log .scanStart :: t) :=
  ⟨by decide, (C4_presence_check w2 3 dbPlain st0).1 (by decide), by decide,
    (C4_presence_check w4 3 db4 st0).2 (by decide)⟩

/-- C5: contrary to the claim, `DeviceUnavailable` while obtaining a handoff
broker does not merely skip the current shard: `_get_and_fill_shard_broker`
swallows it and returns `None`, the caller's 3-tuple unpacking then raises
`TypeError`, and the whole pass aborts — in the world `w5` (no handoff device
anywhere), the pass ends in `TypeError` and the second participating local DB
is never scanned. -/
theorem C5_device_unavailable_kills_pass :
    (one_shard_pass w5 5).res = .error .typeError ∧
    (one_shard_pass w5 5).tr.count (Ev.log .scanStart) = 1 ∧
    participates db5 = true ∧ participates db5b = true ∧ db5b.isLocal = true ∧
    w5.handoff 0 = none := by
  decide

/-- C6 (counterexample): a `Timeout` during the trie fetch of the
misplaced-object phase aborts the entire pass, not only the current DB: in
`w6` the pass ends in `Timeout` and the second participating local DB is
never scanned — refuting the claim that the pass continues with the next
DB. -/
theorem C6_counterexample :
    (one_shard_pass w6 5).res = .error .timeout ∧
    (one_shard_pass w6 5).tr.count (Ev.log .scanStart) = 1 ∧
    participates db6 = true ∧ participates db5b = true ∧ db5b.isLocal = true := by
  decide

/-- C6 (amended): any exception aborting a pass — in particular a `Timeout`
raised during a remote trie fetch — is caught at pass scope in `run_forever`;
the iteration completes normally, the error counter is incremented, the
exception is logged, and the daemon proceeds to the next pass. -/
theorem C6_error_caught_per_pass (w : World) (fuel : Nat) (e : Exc)
    (h : (one_shard_pass w fuel).res = .error e) :
    (run_forever_body w fuel).2 = .ok () ∧
    (run_forever_body w fuel).1 =
      Ev.log .beginPass :: (one_shard_pass w fuel).tr ++
        [Ev.incrementErrors, Ev.log .errorSharding, Ev.log .passCompleted,
          Ev.dumpRecon] := by
  constructor <;> simp [run_forever_body, h]

/-- C6 (witness): the amended behaviour at the timeout world `w6`. -/
theorem C6_witness :
    (one_shard_pass w6 5).res = .error .timeout ∧
    ((run_forever_body w6 5).2 = .ok () ∧
      (run_forever_body w6 5).1 =
        Ev.log .beginPass :: (one_shard_pass w6 5).tr ++
          [Ev.incrementErrors, Ev.log .errorSharding, Ev.log .passCompleted,
            Ev.dumpRecon]) :=
  ⟨by decide, C6_error_caught_per_pass w6 5 .timeout (by decide)⟩

/-- C7: contrary to the claim, after splitting a non-root shard DB the new
distributed-branch record is never pushed to the root container: the
already-generated record dictionaries are passed back into
`_generate_object_list`, whose row path raises `KeyError` (re-raised while
formatting its warning), so in `w7` the pass dies in `KeyError` right after
the parent merge — no `merge_items` call ever targets the root container
`[21]` and no replication of a root handoff broker is spawned. -/
theorem C7_root_push_keyerror :
    (one_shard_pass w7 9).res = .error .keyError ∧
    (one_shard_pass w7 9).tr.countP (fun e => match e with
      | Ev.mergeItems t _ => t == db7.container
      | _ => false) = 1 ∧
    (one_shard_pass w7 9).tr.countP (fun e => match e with
      | Ev.mergeItems t _ => t == [21]
      | _ => false) = 0 ∧
    Ev.spawnReplicate [21] ∉ (one_shard_pass w7 9).tr ∧
    get_shard_root_path db7 = ([20], [21]) := by
  decide

/-- C8: within one pass the shard-broker factory memoizes by container name
alone — after a call for container `c` succeeds, any further call for `c`
returns the very broker created by the first call, emits no events (no ring
lookup, no DB creation, no metadata access) and leaves the state unchanged,
even when the prefix, account and policy-index arguments all differ. -/
theorem C8_broker_memoized_by_container (w : World) (px1 px2 a1 a2 : Str)
    (pi1 pi2 : Nat) (c : Str) (st : St) (bi : BrokerInfo)
    (h : (get_shard_broker w px1 a1 c pi1 st).res = .ok bi) :
    get_shard_broker w px2 a2 c pi2 (get_shard_broker w px1 a1 c pi1 st).st =
      ⟨(get_shard_broker w px1 a1 c pi1 st).st, [], .ok bi⟩ := by
  unfold get_shard_broker at h ⊢
  cases hbk : st.brokers with
  | none => rw [hbk] at h; simp at h
  | some bs =>
    simp only [hbk] at h ⊢
    cases hlk : lookupBroker bs c with
    | some bi0 =>
      simp only [hlk] at h ⊢
      simp only [Except.ok.injEq] at h
      subst h
      simp [hbk, hlk]
    | none =>
      simp only [hlk] at h ⊢
      cases hh : w.handoff (w.getPart a1 c) with
      | none => simp [hh] at h
      | some nid =>
        simp only [hh] at h
        simp only [Except.ok.injEq] at h
        subst h
        simp [lookupBroker]

/-- C8 (witness): two calls with the same container but different prefix,
account and policy index. -/
theorem C8_witness :
    (get_shard_broker w2 [1] [5] [6] 0 st0).res = .ok ⟨0, [5], [6], 0⟩ ∧
    get_shard_broker w2 [2] [9] [6] 7 (get_shard_broker w2 [1] [5] [6] 0 st0).st =
      ⟨(get_shard_broker w2 [1] [5] [6] 0 st0).st, [], .ok ⟨0, [5], [6], 0⟩⟩ :=
  ⟨by decide, C8_broker_memoized_by_container w2 [1] [2] [5] [9] 0 7 [6] st0
    ⟨0, [5], [6], 0⟩ (by decide)⟩

/-- C9: `get_shard_root_path` resolves the root account and the root
container independently, field by field — with only
`X-Container-Sysmeta-Shard-Account` set it returns the sysmeta account paired
with the broker's own container name, and symmetrically with only
`X-Container-Sysmeta-Shard-Container` set, so the returned pair can mix
shard-sysmeta values with the broker's own identity. -/
theorem C9_root_path_fieldwise (db : Db) :
    (∀ a t, mdGet db.metadata .shardAccount = some (a, t) →
      mdGet db.metadata .shardContainer = none →
      get_shard_root_path db = (a, db.container)) ∧
    (∀ c u, mdGet db.metadata .shardAccount = none →
      mdGet db.metadata .shardContainer = some (c, u) →
      get_shard_root_path db = (db.account, c)) := by
  constructor <;> intro x y h1 h2 <;> simp [get_shard_root_path, h1, h2]

/-- C9 (witness): a DB with only the account sysmeta and one with only the
container sysmeta. -/
theorem C9_witness :
    mdGet db9a.metadata .shardAccount = some ([30], 7) ∧
    mdGet db9a.metadata .shardContainer = none ∧
    get_shard_root_path db9a = ([30], db9a.container) ∧
    mdGet db9c.metadata .shardAccount = none ∧
    mdGet db9c.metadata .shardContainer = some ([31], 7) ∧
    get_shard_root_path db9c = (db9c.account, [31]) :=
  ⟨by decide, by decide,
    (C9_root_path_fieldwise db9a).1 [30] 7 (by decide) (by decide),
    by decide, by decide,
    (C9_root_path_fieldwise db9c).2 [31] 7 (by decide) (by decide)⟩

/-- C10: `_generate_object_list` gives every `TRIE_NODE` record built from a
raw row tuple (length at most 3) `storage_policy_index` 0, whereas the
`TRIE_NODE` record built from a `ShardTrie` distributed-branch node receives
the `policy_index` argument — so the same logical trie node yields records
differing exactly in the policy index depending on the input form. -/
theorem C10_trie_node_policy_index (name : Str) (ts pi : Nat) (d : Bool) (fd : Bool) :
    generate_object_list (.rows [⟨name, ts, none⟩]) pi d none fd =
      .ok [⟨name, ts, 0, [], [], d, 0, .trieNode⟩] ∧
    generate_object_list (.trie ⟨name, [⟨name, .distBranch, ts, 0, [], []⟩]⟩)
        pi d none false =
      .ok [⟨name, ts, 0, [], [], d, pi, .trieNode⟩] := by
  constructor
  · rfl
  · rfl

end Sharder
